import Mathlib

/-!
Verification development for the reservation core of a hotel
property-management backend (django-code-example).

The development shallowly embeds, as pure Lean functions:
  * the rate/discount/price resolver (`board/usecases/_calculate_new_reservation.py`),
  * the snapshot merge engine on the reservation aggregate (`board/entities.py`),
  * the acceptance transition and the persistence-boundary child diffing
    (`board/implementation/_reservations_repo.py`, `board/models/_reservation_room.py`).

Conventions: `datetime.date` and timestamps are embedded as `Int` (day ordinals),
`Decimal` as `ℚ`, Django querysets as lists, Python `dict` as association lists
that preserve insertion order with last-wins insertion (as Python dicts do).
Python exceptions that a use case catches and converts into an error result are
embedded as `Except Unit`.
-/

abbrev Date := Int
abbrev Money := ℚ

/-- JSON-object-valued fields (cancellation `policy`, `creditcard_info`)
are embedded shallowly as string-keyed association lists. -/
abbrev JsonDict := List (String × String)

/-- Python `dict` insertion with last-wins overwrite that keeps the
original insertion position of an existing key. -/
def dict_insert {κ α : Type} [BEq κ] (l : List (κ × α)) (k : κ) (v : α) :
    List (κ × α) :=
  if (l.lookup k).isSome then
    l.map (fun p => if p.1 == k then (k, v) else p)
  else
    l ++ [(k, v)]

/-- `{key(x): x for x in l}` : index a list by a key, later entries win. -/
def build_index {α κ : Type} [BEq κ] (l : List α) (key : α → κ) :
    List (κ × α) :=
  l.foldl (fun acc x => dict_insert acc (key x) x) []

/-- `common.functions.get_days_for_period`: days from `start_date` while
`day <= end_date`, with `exclude` dropping the final day first. -/
def get_days_for_period (start_date end_date : Date) (exclude : Bool) : List Date :=
  let e := if exclude then end_date - 1 else end_date
  (List.range (e + 1 - start_date).toNat).map (fun i => start_date + i)

/-- `sorted(discounts, key=lambda x: x.discount, reverse=True)[0].discount`
is the greatest discount of a non-empty rule list. -/
def max_discount : List Int → Option Int
  | [] => none
  | x :: xs => some (xs.foldl max x)

namespace discounts

/-- `discounts.entities.LastMinDiscount` (fields as used by the resolver). -/
structure LastMinDiscount where
  id : Int
  days_before : Int
  discount : Int
  start_date : Date
  end_date : Date
  deriving DecidableEq

/-- `discounts.entities.AvailabilityDiscount` (fields as used by the resolver). -/
structure AvailabilityDiscount where
  id : Int
  free_rooms : Int
  discount : Int
  start_date : Date
  end_date : Date
  deriving DecidableEq

/-- `discounts.entities.LOSDiscount` (fields as used by the resolver). -/
structure LOSDiscount where
  id : Int
  nights : Int
  discount : Int
  start_date : Date
  end_date : Date
  deriving DecidableEq

end discounts

namespace house_prices

/-- `house_prices.entities.Rate` (fields as used by the resolver). -/
structure Rate where
  id : Int
  occupancy : Int
  deriving DecidableEq

end house_prices

namespace usecases

open discounts house_prices

/-- `CalculateNewReservation.apply_last_minute_discount`.  A `none` price fed to
an eligible rule raises a `TypeError` in the source (`None * Decimal`), which the
calling step catches and turns into an error result: embedded as `.error ()`. -/
def apply_last_minute_discount (discounts : List LastMinDiscount) (today day : Date)
    (value : Option Money) : Except Unit (Option Money) :=
  let check_date := day - today
  let eligible := discounts.filter
    (fun x => decide (check_date ≤ x.days_before) &&
              decide (x.start_date ≤ day) && decide (day ≤ x.end_date))
  match max_discount (eligible.map (·.discount)) with
  | none => .ok value
  | some d =>
    match value with
    | none => .error ()
    | some v => .ok (some (v * (1 - (d : ℚ) / 100)))

/-- `CalculateNewReservation.apply_availability_discount`;
`(inventory or 0)` is `inventory.getD 0`. -/
def apply_availability_discount (discounts : List AvailabilityDiscount) (day : Date)
    (value : Option Money) (inventory : Option Int) : Except Unit (Option Money) :=
  let eligible := discounts.filter
    (fun x => decide (x.free_rooms ≤ inventory.getD 0) &&
              decide (x.start_date ≤ day) && decide (day ≤ x.end_date))
  match max_discount (eligible.map (·.discount)) with
  | none => .ok value
  | some d =>
    match value with
    | none => .error ()
    | some v => .ok (some (v * (1 - (d : ℚ) / 100)))

/-- `CalculateNewReservation.apply_los_discount`. -/
def apply_los_discount (discounts : List LOSDiscount) (day : Date)
    (value : Option Money) (nights : Int) : Except Unit (Option Money) :=
  let eligible := discounts.filter
    (fun x => decide (x.nights ≤ nights) &&
              decide (x.start_date ≤ day) && decide (day ≤ x.end_date))
  match max_discount (eligible.map (·.discount)) with
  | none => .ok value
  | some d =>
    match value with
    | none => .error ()
    | some v => .ok (some (v * (1 - (d : ℚ) / 100)))

/-- `CalculateNewReservation.apply_min_price`: `max(None, Decimal)` raises in
Python 3, caught by the calling step, hence `.error ()` for an absent price on a
restricted day. -/
def apply_min_price (restrictions : List (Date × Money)) (day : Date)
    (value : Option Money) : Except Unit (Option Money) :=
  if restrictions.isEmpty || (restrictions.lookup day).isNone then .ok value
  else
    match value with
    | none => .error ()
    | some v => .ok (some (max v ((restrictions.lookup day).getD 0)))

/-- `ctx.discounts`: a dict keyed by `DiscountTypes`; a missing key is `none`
(`ctx.discounts.get(t, [])` is `getD []`), an empty dict has all keys missing. -/
structure Discounts where
  last_minute : Option (List LastMinDiscount)
  availability : Option (List AvailabilityDiscount)
  los : Option (List LOSDiscount)
  deriving DecidableEq

/-- `not ctx.discounts` : the dict has no keys at all. -/
def Discounts.isEmpty (d : Discounts) : Bool :=
  d.last_minute.isNone && d.availability.isNone && d.los.isNone

/-- The resolver's `Context` (fields the discount/restriction steps read). -/
structure Context where
  start_date : Date
  end_date : Date
  guest_count : Int
  rate_id : Option Int
  rate : Option Rate
  rates : List Rate
  prices : List (Date × Option Money)
  discounts : Discounts
  occupancies : List (Date × Option Int)
  price_restrictions : List (Date × Money)
  deriving DecidableEq

/-- `{x: f(x, y) for x, y in ctx.prices.items()}` inside a `try`: the dict
comprehension preserving keys, the first raised exception aborting the step. -/
def map_prices (f : Date → Option Money → Except Unit (Option Money)) :
    List (Date × Option Money) → Except Unit (List (Date × Option Money))
  | [] => .ok []
  | (d, v) :: rest => do
      let v2 ← f d v
      let rest2 ← map_prices f rest
      .ok ((d, v2) :: rest2)

/-- `CalculateNewReservation.check_last_minute_discounts`. -/
def check_last_minute_discounts (today : Date) (ctx : Context) :
    Except Unit Context :=
  if ctx.discounts.isEmpty || ctx.rate.isNone || ctx.prices.isEmpty then .ok ctx
  else
    let ds := ctx.discounts.last_minute.getD []
    if ds.isEmpty then .ok ctx
    else do
      let prices ← map_prices (fun x y => apply_last_minute_discount ds today x y) ctx.prices
      .ok { ctx with prices := prices }

/-- `CalculateNewReservation.check_availability_discounts`;
`ctx.occupancies.get(x)` is `(lookup x).join` (missing key gives `None`). -/
def check_availability_discounts (ctx : Context) : Except Unit Context :=
  if ctx.discounts.isEmpty || ctx.rate.isNone || ctx.prices.isEmpty then .ok ctx
  else
    let ds := ctx.discounts.availability.getD []
    if ds.isEmpty then .ok ctx
    else do
      let prices ← map_prices
        (fun x y => apply_availability_discount ds x y ((ctx.occupancies.lookup x).join))
        ctx.prices
      .ok { ctx with prices := prices }

/-- `CalculateNewReservation.check_los_discounts`. -/
def check_los_discounts (ctx : Context) : Except Unit Context :=
  if ctx.discounts.isEmpty || ctx.rate.isNone || ctx.prices.isEmpty then .ok ctx
  else
    let ds := ctx.discounts.los.getD []
    if ds.isEmpty then .ok ctx
    else do
      let nights := ctx.end_date - ctx.start_date
      let prices ← map_prices (fun x y => apply_los_discount ds x y nights) ctx.prices
      .ok { ctx with prices := prices }

/-- `CalculateNewReservation.check_min_prices`. -/
def check_min_prices (ctx : Context) : Except Unit Context :=
  if ctx.rate.isNone || ctx.price_restrictions.isEmpty then .ok ctx
  else do
    let prices ← map_prices (fun x y => apply_min_price ctx.price_restrictions x y) ctx.prices
    .ok { ctx with prices := prices }

/-- The discount/restriction tail of `CalculateNewReservation.execute`:
`check_last_minute_discounts` then `check_availability_discounts` then
`check_los_discounts` then `check_min_prices`, short-circuiting on failure. -/
def discount_pipeline (today : Date) (ctx : Context) : Except Unit Context :=
  (((check_last_minute_discounts today ctx).bind check_availability_discounts).bind
      check_los_discounts).bind check_min_prices

/-- `dict.update`: existing keys are overwritten in place, new keys appended
in the update's order. -/
def dict_update (base : List (Date × Option Money)) (data : List (Date × Money)) :
    List (Date × Option Money) :=
  base.map (fun p =>
      match data.lookup p.1 with
      | some v => (p.1, some v)
      | none => p) ++
    (data.filter (fun q => (base.lookup q.1).isNone)).map (fun q => (q.1, some q.2))

/-- `CalculateNewReservation.select_daily_prices`: every day of
`[start_date, end_date)` defaults to absent (`None`); prices fetched from the
repository (the `data` argument) overlay that dict when a rate was resolved. -/
def select_daily_prices (data : List (Date × Money)) (ctx : Context) :
    Except Unit Context :=
  let base := (get_days_for_period ctx.start_date ctx.end_date true).map
    (fun d => (d, (none : Option Money)))
  if ctx.rate.isNone then .ok { ctx with prices := base }
  else .ok { ctx with prices := dict_update base data }

/-- `CalculateNewReservation.select_rate_by_id`:
`cf.get_int_or_none(ctx.rate_id) or 0` is `getD 0`. -/
def select_rate_by_id (ctx : Context) : Except Unit Context :=
  let pk := ctx.rate_id.getD 0
  if pk ≤ 0 || ctx.rates.isEmpty then .ok ctx
  else
    let idx := build_index ctx.rates (·.id)
    .ok { ctx with rate := idx.lookup pk }

/-- `CalculateNewReservation.select_rate_by_guest_count`.  `sorted(keys)` is an
insertion sort of the dict's keys; `sorted(keys, reverse=True)` is its reverse
(the keys are pairwise distinct). -/
def select_rate_by_guest_count (ctx : Context) : Except Unit Context :=
  if ctx.rate.isSome || ctx.rates.isEmpty then .ok ctx
  else
    let idx := build_index ctx.rates (·.occupancy)
    match idx.lookup ctx.guest_count with
    | some r => .ok { ctx with rate := some r }
    | none =>
      let keys := idx.map (·.1)
      let asc := List.insertionSort (· ≤ ·) keys
      match asc.find? (fun o => decide (ctx.guest_count < o)) with
      | some o => .ok { ctx with rate := idx.lookup o }
      | none =>
        match asc.reverse.find? (fun o => decide (o < ctx.guest_count)) with
        | some o => .ok { ctx with rate := idx.lookup o }
        | none => .ok ctx

end usecases

/-- `effective_tours.constants.ReservationStatuses`. -/
inductive ReservationStatuses where
  | NEW | MODIFY | HOLD | CANCEL | CLOSE
  deriving DecidableEq

namespace ota

/-- `channels.ota.schemas.OtaReservationPrice` (fields read by the merge). -/
structure OtaReservationPrice where
  day : Date
  price : Money
  tax : Money
  currency : Option String
  roomtype_id : Option Int
  deriving DecidableEq

/-- `channels.ota.schemas.OtaReservationRoom` (fields read by the merge). -/
structure OtaReservationRoom where
  channel_id : String
  channel_rate_id : String
  rate_plan_id : Option Int
  policy : JsonDict
  checkin : Date
  checkout : Date
  external_id : Option String
  external_name : String
  guest_name : String
  guest_count : Int
  adults : Int
  children : Int
  max_children : Int
  extra_bed : Int
  with_breakfast : Bool
  currency : Option String
  price : Money
  netto_price : Money
  tax : Money
  fees : Money
  notes_extra : String
  notes_facilities : String
  notes_info : String
  notes_meal : String
  day_prices : List OtaReservationPrice
  deriving DecidableEq

/-- The guest block of `channels.ota.schemas.OtaReservation`. -/
structure OtaGuest where
  name : String
  surname : String
  email : String
  phone : String
  country : String
  city : String
  nationality : String
  address : String
  comments : String
  post_code : String
  deriving DecidableEq

/-- `channels.ota.schemas.OtaReservation` (fields read by the merge);
`creditcard_info.dict()` is the `JsonDict` itself. -/
structure OtaReservation where
  channel_id : String
  checkin : Date
  checkout : Date
  booking_date : Int
  status : ReservationStatuses
  room_count : Int
  currency : Option String
  price : Money
  netto_price : Money
  tax : Money
  fees : Money
  promo : String
  payment_info : String
  guest : Option OtaGuest
  creditcard_info : Option JsonDict
  rooms : List OtaReservationRoom
  deriving DecidableEq

end ota

namespace entities

open ota

/-- `board.entities.ReservationDay` (the attrs entity). -/
structure ReservationDay where
  id : Option Int
  reservation_room_id : Option Int
  day : Date
  roomtype_id : Option Int
  room_id : Option Int
  price_changed : Money
  price_accepted : Money
  tax : Money
  currency : Option String
  price_original : Money
  deriving DecidableEq

/-- `board.entities.ReservationDay.load`. -/
def ReservationDay.load (room_id : Option Int) (data : OtaReservationPrice) :
    ReservationDay where
  id := none
  reservation_room_id := room_id
  day := data.day
  roomtype_id := data.roomtype_id
  room_id := none
  price_changed := data.price
  price_accepted := 0
  tax := data.tax
  currency := data.currency
  price_original := 0

/-- `board.entities.ReservationDay.update`: the flag is set only by a
`price_changed` inequality; `day`/`tax`/`currency` are overwritten on inequality
without touching the flag (writing an equal value back is the identity, so the
conditional writes are embedded as unconditional ones). -/
def ReservationDay.update (self : ReservationDay) (data : OtaReservationPrice) :
    ReservationDay × Bool :=
  let is_changed := self.price_changed ≠ data.price
  ({ self with price_changed := data.price, day := data.day, tax := data.tax,
               currency := data.currency },
   is_changed)

/-- `board.entities.ReservationRoom` (the attrs entity). -/
structure ReservationRoom where
  id : Option Int
  reservation_id : Option Int
  channel_id : String
  channel_rate_id : String
  checkin : Date
  checkout : Date
  rate_plan_id : Option Int
  rate_id : Option Int
  external_id : Option String
  external_name : String
  guest_name : String
  guest_count : Int
  adults : Int
  children : Int
  max_children : Int
  extra_bed : Int
  with_breakfast : Bool
  currency : Option String
  policy : JsonDict
  price : Money
  price_accepted : Money
  netto_price : Money
  netto_price_accepted : Money
  tax : Money
  fees : Money
  notes_extra : String
  notes_facilities : String
  notes_info : String
  notes_meal : String
  day_prices : List ReservationDay
  checkin_original : Option Date
  checkout_original : Option Date
  rate_plan_id_original : Option Int
  policy_original : Option JsonDict
  is_deleted : Bool
  deleted_at : Option Int
  deriving DecidableEq

/-- `board.entities.ReservationRoom.load`. -/
def ReservationRoom.load (reservation_id : Option Int) (data : OtaReservationRoom) :
    ReservationRoom where
  id := none
  reservation_id := reservation_id
  channel_id := data.channel_id
  channel_rate_id := data.channel_rate_id
  checkin := data.checkin
  checkout := data.checkout
  rate_plan_id := data.rate_plan_id
  rate_id := none
  external_id := data.external_id
  external_name := data.external_name
  guest_name := data.guest_name
  guest_count := data.guest_count
  adults := data.adults
  children := data.children
  max_children := data.max_children
  extra_bed := data.extra_bed
  with_breakfast := data.with_breakfast
  currency := data.currency
  policy := data.policy
  price := data.price
  price_accepted := 0
  netto_price := data.netto_price
  netto_price_accepted := 0
  tax := data.tax
  fees := data.fees
  notes_extra := data.notes_extra
  notes_facilities := data.notes_facilities
  notes_info := data.notes_info
  notes_meal := data.notes_meal
  day_prices := data.day_prices.map (fun p => ReservationDay.load none p)
  checkin_original := none
  checkout_original := none
  rate_plan_id_original := none
  policy_original := none
  is_deleted := false
  deleted_at := none

/-- One iteration of the day-merge loop of
`board.entities.ReservationRoom.update`: an index hit updates a copy of the
existing day, a miss loads a fresh one; the flag accumulates with `or`. -/
def merge_day_step (room_id : Option Int) (index : List (Date × ReservationDay))
    (acc : List ReservationDay × Bool) (price_data : OtaReservationPrice) :
    List ReservationDay × Bool :=
  match index.lookup price_data.day with
  | some price =>
      let r := price.update price_data
      (acc.1 ++ [r.1], acc.2 || r.2)
  | none => (acc.1 ++ [ReservationDay.load room_id price_data], acc.2 || true)

/-- The day-merge loop of `board.entities.ReservationRoom.update`; the new
list is in snapshot order. -/
def merge_day_prices (room_id : Option Int) (index : List (Date × ReservationDay))
    (data : List OtaReservationPrice) (is_changed : Bool) :
    List ReservationDay × Bool :=
  data.foldl (merge_day_step room_id index) ([], is_changed)

/-- `board.entities.ReservationRoom.update`: `checkin`/`checkout`/
`channel_rate_id` inequalities set the flag; the mapping-table fields are
overwritten without touching it; day children are merged keyed by `day`. -/
def ReservationRoom.update (self : ReservationRoom) (data : OtaReservationRoom) :
    ReservationRoom × Bool :=
  let is_changed := self.checkin ≠ data.checkin || self.checkout ≠ data.checkout ||
    self.channel_rate_id ≠ data.channel_rate_id
  let existed_prices := build_index self.day_prices (·.day)
  let merged := merge_day_prices self.id existed_prices data.day_prices is_changed
  ({ self with
      checkin := data.checkin
      checkout := data.checkout
      channel_rate_id := data.channel_rate_id
      channel_id := data.channel_id
      rate_plan_id := data.rate_plan_id
      policy := data.policy
      external_name := data.external_name
      guest_name := data.guest_name
      guest_count := data.guest_count
      adults := data.adults
      children := data.children
      max_children := data.max_children
      extra_bed := data.extra_bed
      with_breakfast := data.with_breakfast
      currency := data.currency
      price := data.price
      tax := data.tax
      fees := data.fees
      netto_price := data.netto_price
      notes_extra := data.notes_extra
      notes_facilities := data.notes_facilities
      notes_info := data.notes_info
      notes_meal := data.notes_meal
      day_prices := merged.1 },
   merged.2)

/-- `board.entities.Reservation` (the attrs entity). -/
structure Reservation where
  id : Option Int
  house_id : Int
  channel_id : String
  checkin : Date
  checkout : Date
  booked_at : Int
  status : ReservationStatuses
  room_count : Int
  currency : Option String
  price : Money
  price_accepted : Money
  netto_price : Money
  netto_price_accepted : Money
  tax : Money
  fees : Money
  guest_name : String
  guest_surname : String
  guest_email : String
  guest_phone : String
  guest_country : String
  guest_nationality : String
  guest_city : String
  guest_address : String
  guest_post_code : String
  guest_comments : String
  guest_contact_id : Option Int
  guest_contact_ids : List Int
  promo : String
  payment_info : String
  creditcard_info : JsonDict
  is_verified : Bool
  verified_at : Option Int
  opportunity_id : Option Int
  quotation_id : Option Int
  rooms : List ReservationRoom
  deriving DecidableEq

/-- One iteration of the room-merge loop of
`board.entities.Reservation.update`: rooms keyed by `external_id`, a hit
updates a copy, a miss loads fresh, the flag accumulates with `or`. -/
def merge_room_step (reservation_id : Option Int)
    (index : List (Option String × ReservationRoom))
    (acc : List ReservationRoom × Bool) (room_data : OtaReservationRoom) :
    List ReservationRoom × Bool :=
  match index.lookup room_data.external_id with
  | some room =>
      let r := room.update room_data
      (acc.1 ++ [r.1], acc.2 || r.2)
  | none => (acc.1 ++ [ReservationRoom.load reservation_id room_data], acc.2 || true)

/-- The room-merge loop of `board.entities.Reservation.update`; the new list
is in snapshot order. -/
def merge_rooms (reservation_id : Option Int)
    (index : List (Option String × ReservationRoom))
    (data : List OtaReservationRoom) (is_changed : Bool) :
    List ReservationRoom × Bool :=
  data.foldl (merge_room_step reservation_id index) ([], is_changed)

/-- `board.entities.Reservation.update`: only `checkin`/`checkout` inequalities
(and child changes) set the flag; the mapping-table and guest-mapping fields are
overwritten silently; a missing snapshot guest blanks the guest fields;
`creditcard_info` is replaced when supplied and cleared when absent. -/
def Reservation.update (self : Reservation) (data : OtaReservation) :
    Reservation × Bool :=
  let is_changed := self.checkin ≠ data.checkin || self.checkout ≠ data.checkout
  let existed_rooms := build_index self.rooms (·.external_id)
  let merged := merge_rooms self.id existed_rooms data.rooms is_changed
  ({ self with
      checkin := data.checkin
      checkout := data.checkout
      booked_at := data.booking_date
      status := data.status
      room_count := data.room_count
      currency := data.currency
      price := data.price
      tax := data.tax
      fees := data.fees
      netto_price := data.netto_price
      promo := data.promo
      payment_info := data.payment_info
      guest_name := (data.guest.map (·.name)).getD ""
      guest_surname := (data.guest.map (·.surname)).getD ""
      guest_email := (data.guest.map (·.email)).getD ""
      guest_phone := (data.guest.map (·.phone)).getD ""
      guest_country := (data.guest.map (·.country)).getD ""
      guest_city := (data.guest.map (·.city)).getD ""
      guest_nationality := (data.guest.map (·.nationality)).getD ""
      guest_address := (data.guest.map (·.address)).getD ""
      guest_comments := (data.guest.map (·.comments)).getD ""
      guest_post_code := (data.guest.map (·.post_code)).getD ""
      creditcard_info :=
        match data.creditcard_info with
        | some cc => cc
        | none => []
      rooms := merged.1 },
   merged.2)

end entities

namespace models

/-- `board.models._reservation_day.ReservationDay` (the ORM row; `id` is the
database primary key, abstracted as `0` for rows created inside the boundary). -/
structure ReservationDay where
  id : Int
  reservation_room_id : Int
  day : Date
  roomtype_id : Option Int
  room_id : Option Int
  price_original : Money
  price_changed : Money
  price_accepted : Money
  tax : Money
  currency : Option String
  deriving DecidableEq

/-- `board.models._reservation_room.ReservationRoom` (the ORM row, with its
`day_prices` related set inlined as a list). -/
structure ReservationRoom where
  id : Int
  reservation_id : Int
  channel_id : String
  rate_id : Option Int
  rate_plan_id : Option Int
  rate_plan_id_original : Option Int
  channel_rate_id : String
  channel_rate_id_changed : String
  checkin : Date
  checkin_original : Date
  checkout : Date
  checkout_original : Date
  price : Money
  price_accepted : Money
  netto_price : Money
  netto_price_accepted : Money
  external_id : Option String
  external_name : String
  guest_name : String
  guest_count : Int
  adults : Int
  children : Int
  max_children : Int
  extra_bed : Int
  with_breakfast : Bool
  currency : Option String
  tax : Money
  fees : Money
  notes_extra : String
  notes_facilities : String
  notes_info : String
  notes_meal : String
  policy : JsonDict
  policy_original : JsonDict
  is_deleted : Bool
  deleted_at : Option Int
  day_prices : List ReservationDay
  deriving DecidableEq

/-- `board.models._reservation_room.ReservationRoom.delete`: rooms are
soft-deleted (flag plus timestamp), never erased. -/
def ReservationRoom.delete (self : ReservationRoom) (now : Int) : ReservationRoom :=
  { self with is_deleted := true, deleted_at := some now }

/-- `board.models._reservation.Reservation` (the ORM row; fields touched by
`accept` and the room diffing, with the `rooms` related set inlined). -/
structure Reservation where
  id : Int
  house_id : Int
  status : ReservationStatuses
  checkin : Date
  checkin_original : Date
  checkout : Date
  checkout_original : Date
  price : Money
  price_accepted : Money
  netto_price : Money
  netto_price_accepted : Money
  is_verified : Bool
  verified_at : Option Int
  rooms : List ReservationRoom
  deriving DecidableEq

/-- The day-price commit inside `ReservationsRepoOrm.accept`: only day rows
whose id is in the normalised filter are touched
(`room.day_prices.filter(id__in=price_ids)`). -/
def accept_day_price (ids : List Int) (price : ReservationDay) : ReservationDay :=
  if price.id ∈ ids then
    { price with
        price_original := price.price_changed
        price_accepted := price.price_changed }
  else price

/-- The per-room body of `ReservationsRepoOrm.accept`'s `rooms.active()` loop:
each per-field conditional copy is the identity when the values are already
equal, so it is embedded as an unconditional copy, except for
`policy_original`, copied only when the rate-plan identity changed. -/
def accept_room (ids : List Int) (room : ReservationRoom) : ReservationRoom :=
  if room.is_deleted then room
  else
    let room :=
      { room with
          channel_rate_id := room.channel_rate_id_changed
          checkin_original := room.checkin
          checkout_original := room.checkout }
    let room :=
      if room.rate_plan_id_original ≠ room.rate_plan_id then
        { room with
            rate_plan_id_original := room.rate_plan_id
            policy_original := room.policy }
      else room
    let room :=
      { room with
          price_accepted := room.price
          netto_price_accepted := room.netto_price }
    { room with day_prices := room.day_prices.map (accept_day_price ids) }

/-- `ReservationsRepoOrm.accept` as a state transition on the stored aggregate.
`price_ids` is normalised exactly as the source does (`get_int_or_none` keeps
integers, then only positive ids survive); a verified reservation is returned
untouched; `model.rooms.active()` skips soft-deleted rooms. -/
def accept (m : Reservation) (price_ids : Option (List Int)) (now : Int) :
    Reservation :=
  let ids := (price_ids.getD []).filter (fun x => 0 < x)
  if m.is_verified then m
  else
    { m with
        checkin_original := m.checkin
        checkout_original := m.checkout
        price_accepted := m.price
        netto_price_accepted := m.netto_price
        is_verified := true
        verified_at := some now
        rooms := m.rooms.map (accept_room ids) }

/-- `ReservationsRepoOrm._create_reservation_day`. -/
def create_reservation_day (room_id : Int) (data : entities.ReservationDay) :
    ReservationDay where
  id := 0
  reservation_room_id := room_id
  day := data.day
  roomtype_id := data.roomtype_id
  room_id := data.room_id
  price_original := data.price_changed
  price_changed := data.price_changed
  price_accepted := data.price_changed
  tax := data.tax
  currency := data.currency

/-- `ReservationsRepoOrm._create_reservation_room` (with its day rows). -/
def create_reservation_room (reservation_id : Int) (room : entities.ReservationRoom) :
    ReservationRoom where
  id := 0
  reservation_id := reservation_id
  channel_id := room.channel_id
  rate_id := room.rate_id
  rate_plan_id := room.rate_plan_id
  rate_plan_id_original := room.rate_plan_id
  channel_rate_id := room.channel_rate_id
  channel_rate_id_changed := room.channel_rate_id
  checkin := room.checkin
  checkin_original := room.checkin
  checkout := room.checkout
  checkout_original := room.checkout
  price := room.price
  price_accepted := room.price
  netto_price := room.netto_price
  netto_price_accepted := room.netto_price
  external_id := room.external_id
  external_name := room.external_name
  guest_name := room.guest_name
  guest_count := room.guest_count
  adults := room.adults
  children := room.children
  max_children := room.max_children
  extra_bed := room.extra_bed
  with_breakfast := room.with_breakfast
  currency := room.currency
  tax := room.tax
  fees := room.fees
  notes_extra := room.notes_extra
  notes_facilities := room.notes_facilities
  notes_info := room.notes_info
  notes_meal := room.notes_meal
  policy := room.policy
  policy_original := room.policy
  is_deleted := false
  deleted_at := none
  day_prices := room.day_prices.map (fun p => create_reservation_day 0 p)

/-- The field part of `ReservationsRepoOrm._update_reservation_day`: the
mapping table plus the accepted/proposed price branch. -/
def update_reservation_day_fields (day_model : ReservationDay)
    (data : entities.ReservationDay) (with_accepted_prices : Bool) :
    ReservationDay :=
  let day_model :=
    { day_model with
        tax := data.tax
        currency := data.currency
        roomtype_id := data.roomtype_id
        room_id := data.room_id }
  if with_accepted_prices then { day_model with price_accepted := data.price_accepted }
  else { day_model with price_changed := data.price_changed }

/-- `ReservationDayModel.objects.filter(reservation_room_id=.., day=..)[0]`
then update: the first row with that day is updated, a missing row
(`IndexError`) leaves the list untouched. -/
def update_first_day (data : entities.ReservationDay) (with_accepted_prices : Bool) :
    List ReservationDay → List ReservationDay
  | [] => []
  | d :: rest =>
    if d.day = data.day then update_reservation_day_fields d data with_accepted_prices :: rest
    else d :: update_first_day data with_accepted_prices rest

/-- `ReservationsRepoOrm._delete_reservation_day`: the first row with that day
is hard-deleted (removed); a missing row is ignored. -/
def delete_first_day (day : Date) : List ReservationDay → List ReservationDay
  | [] => []
  | d :: rest => if d.day = day then rest else d :: delete_first_day day rest

/-- The day-diffing tail of `ReservationsRepoOrm._update_reservation_room`:
snapshot days update the stored row with that date or create a fresh row, and
stored dates missing from the snapshot are hard-deleted. -/
def update_day_prices_diff (room_id : Int) (days : List ReservationDay)
    (data_days : List entities.ReservationDay) (with_accepted_prices : Bool) :
    List ReservationDay :=
  let existed_days : List Date := days.map (·.day)
  let days1 := data_days.foldl
    (fun ds price_data =>
      if price_data.day ∈ existed_days then
        update_first_day price_data with_accepted_prices ds
      else
        ds ++ [create_reservation_day room_id price_data])
    days
  let processed_days : List Date := data_days.map (·.day)
  let deleted_days := existed_days.filter (fun d => ¬ d ∈ processed_days)
  deleted_days.foldl (fun ds d => delete_first_day d ds) days1

/-- `ReservationsRepoOrm._update_reservation_room` on a fetched room row: the
mapping-table fields, the accepted/proposed branch, then the day diffing —
snapshot days update or create rows, stored days missing from the snapshot are
hard-deleted. -/
def update_reservation_room_model (room_model : ReservationRoom)
    (data : entities.ReservationRoom) (with_accepted_prices : Bool) :
    ReservationRoom :=
  let room_model :=
    { room_model with
        channel_rate_id_changed := data.channel_rate_id
        external_name := data.external_name
        checkin := data.checkin
        checkout := data.checkout
        rate_plan_id := data.rate_plan_id
        policy := data.policy
        guest_name := data.guest_name
        guest_count := data.guest_count
        adults := data.adults
        children := data.children
        max_children := data.max_children
        extra_bed := data.extra_bed
        with_breakfast := data.with_breakfast
        currency := data.currency
        tax := data.tax
        fees := data.fees
        notes_extra := data.notes_extra
        notes_facilities := data.notes_facilities
        notes_info := data.notes_info
        notes_meal := data.notes_meal }
  let room_model :=
    if with_accepted_prices then
      { room_model with
          checkin_original := data.checkin
          checkout_original := data.checkout
          price_accepted := data.price_accepted
          netto_price_accepted := data.netto_price_accepted }
    else
      { room_model with price := data.price, netto_price := data.netto_price }
  let new_days := update_day_prices_diff room_model.id room_model.day_prices
    data.day_prices with_accepted_prices
  { room_model with day_prices := new_days }

/-- `ReservationRoomModel.objects.active().filter(..., external_id=...)[0]`
then update: the first active row with that external id is updated; a missing
row (`IndexError`) leaves the list untouched. -/
def update_first_active_room (data : entities.ReservationRoom)
    (with_accepted_prices : Bool) : List ReservationRoom → List ReservationRoom
  | [] => []
  | r :: rest =>
    if r.is_deleted = false ∧ r.external_id = data.external_id then
      update_reservation_room_model r data with_accepted_prices :: rest
    else r :: update_first_active_room data with_accepted_prices rest

/-- `ReservationsRepoOrm._delete_reservation_room`: the first active row with
that external id is soft-deleted; a missing row is ignored. -/
def delete_first_active_room (now : Int) (external_id : Option String) :
    List ReservationRoom → List ReservationRoom
  | [] => []
  | r :: rest =>
    if r.is_deleted = false ∧ r.external_id = external_id then r.delete now :: rest
    else r :: delete_first_active_room now external_id rest

/-- The child-diffing part of `ReservationsRepoOrm._update_reservation`
(lines 470-485): stored external ids are diffed against the ids processed
during the merge; hits update the stored row, misses create one, and the
remainder is soft-deleted. -/
def update_reservation_rooms (reservation_id : Int) (stored : List ReservationRoom)
    (rooms : List entities.ReservationRoom) (with_accepted_prices : Bool) (now : Int) :
    List ReservationRoom :=
  let existed_external_ids : List (Option String) := stored.map (·.external_id)
  let st1 := rooms.foldl
    (fun st room =>
      if room.external_id ∈ existed_external_ids then
        update_first_active_room room with_accepted_prices st
      else
        st ++ [create_reservation_room reservation_id room])
    stored
  let processed_external_ids : List (Option String) := rooms.map (·.external_id)
  let deleted_external_ids :=
    existed_external_ids.filter (fun e => ¬ e ∈ processed_external_ids)
  deleted_external_ids.foldl (fun st e => delete_first_active_room now e st) st1

end models

section accept_theorems

/-- A concrete soft-deleted room row used for the deleted-room frame witness. -/
def c10_room : models.ReservationRoom where
  id := 7
  reservation_id := 1
  channel_id := "c"
  rate_id := none
  rate_plan_id := some 3
  rate_plan_id_original := some 4
  channel_rate_id := "a"
  channel_rate_id_changed := "b"
  checkin := 0
  checkin_original := 1
  checkout := 2
  checkout_original := 3
  price := 10
  price_accepted := 20
  netto_price := 10
  netto_price_accepted := 20
  external_id := some "x"
  external_name := ""
  guest_name := ""
  guest_count := 1
  adults := 0
  children := 0
  max_children := 0
  extra_bed := 0
  with_breakfast := false
  currency := none
  tax := 0
  fees := 0
  notes_extra := ""
  notes_facilities := ""
  notes_info := ""
  notes_meal := ""
  policy := []
  policy_original := []
  is_deleted := true
  deleted_at := some 5
  day_prices := []

/-- A concrete unverified stored reservation holding the soft-deleted room. -/
def c10_reservation : models.Reservation where
  id := 1
  house_id := 1
  status := .NEW
  checkin := 0
  checkin_original := 0
  checkout := 2
  checkout_original := 2
  price := 50
  price_accepted := 0
  netto_price := 50
  netto_price_accepted := 0
  is_verified := false
  verified_at := none
  rooms := [c10_room]

/-- C10: during accept, only rooms not marked deleted are processed: a
soft-deleted room, together with all its day records, is returned completely
unchanged by the acceptance transition. -/
theorem accept_skips_deleted_rooms (m : models.Reservation)
    (price_ids : Option (List Int)) (now : Int) (i : Nat) (r : models.ReservationRoom)
    (hr : m.rooms[i]? = some r) (hdel : r.is_deleted = true) :
    (models.accept m price_ids now).rooms[i]? = some r := by
  unfold models.accept
  by_cases hv : m.is_verified
  · simp [hv, hr]
  · simp only [hv, if_false, Bool.false_eq_true, List.getElem?_map, hr,
      Option.map_some]
    simp [models.accept_room, hdel]

/-- Closed witness: C10 at the concrete reservation above. -/
theorem accept_skips_deleted_rooms_witness :
    (models.accept c10_reservation (some [1]) 9).rooms[0]? = some c10_room := by
  apply accept_skips_deleted_rooms
  · rfl
  · rfl

end accept_theorems

section accept_filter_theorems

/-- A concrete stored day row whose proposed price differs from its original
and accepted prices. -/
def c1_day : models.ReservationDay where
  id := 1
  reservation_room_id := 7
  day := 0
  roomtype_id := none
  room_id := none
  price_original := 5
  price_changed := 10
  price_accepted := 5
  tax := 0
  currency := none

/-- A concrete active room row holding `c1_day`. -/
def c1_room : models.ReservationRoom where
  id := 7
  reservation_id := 1
  channel_id := "c"
  rate_id := none
  rate_plan_id := some 3
  rate_plan_id_original := some 3
  channel_rate_id := "a"
  channel_rate_id_changed := "b"
  checkin := 0
  checkin_original := 0
  checkout := 2
  checkout_original := 2
  price := 10
  price_accepted := 5
  netto_price := 10
  netto_price_accepted := 5
  external_id := some "x"
  external_name := ""
  guest_name := ""
  guest_count := 1
  adults := 0
  children := 0
  max_children := 0
  extra_bed := 0
  with_breakfast := false
  currency := none
  tax := 0
  fees := 0
  notes_extra := ""
  notes_facilities := ""
  notes_info := ""
  notes_meal := ""
  policy := []
  policy_original := []
  is_deleted := false
  deleted_at := none
  day_prices := [c1_day]

/-- A concrete unverified stored reservation holding `c1_room`. -/
def c1_reservation : models.Reservation where
  id := 1
  house_id := 1
  status := .NEW
  checkin := 0
  checkin_original := 0
  checkout := 2
  checkout_original := 2
  price := 50
  price_accepted := 0
  netto_price := 50
  netto_price_accepted := 0
  is_verified := false
  verified_at := none
  rooms := [c1_room]

/-- C1 counterexample: accepting an unverified reservation with **no** day
filter leaves every day record untouched — `price_changed` (10) is *not*
copied into `price_original`/`price_accepted` (which stay 5), contradicting
the claim that all day records are committed when no filter is given. -/
theorem accept_no_filter_leaves_days_counterexample :
    c1_day.price_changed = 10 ∧ c1_day.price_original = 5 ∧
    ((models.accept c1_reservation none 0).rooms.map
        (fun r => r.day_prices.map (fun d => (d.price_original, d.price_accepted)))) =
      [[((5 : Money), (5 : Money))]] := by
  refine ⟨rfl, rfl, ?_⟩
  rfl

/-- C1 (amended): on an unverified reservation, `accept` commits the
reservation-level accepted prices and check-in/out baselines, flips the
verification flag, and for every active room commits
`channel_rate_id_changed → channel_rate_id` and the room-level accepted
prices regardless of the day filter; a day record is committed
(`price_changed → price_original` and `price_changed → price_accepted`)
exactly when its id is among the positive entries of the `dayPriceIds`
filter — in particular an absent or empty filter commits **no** day records. -/
theorem accept_commits_filtered_days (m : models.Reservation)
    (price_ids : Option (List Int)) (now : Int) (hm : m.is_verified = false) :
    (models.accept m price_ids now).price_accepted = m.price ∧
    (models.accept m price_ids now).netto_price_accepted = m.netto_price ∧
    (models.accept m price_ids now).checkin_original = m.checkin ∧
    (models.accept m price_ids now).checkout_original = m.checkout ∧
    (models.accept m price_ids now).is_verified = true ∧
    ∀ (i : Nat) (r : models.ReservationRoom), m.rooms[i]? = some r →
      r.is_deleted = false →
      ∃ r2 : models.ReservationRoom,
        (models.accept m price_ids now).rooms[i]? = some r2 ∧
        r2.channel_rate_id = r.channel_rate_id_changed ∧
        r2.price_accepted = r.price ∧
        r2.netto_price_accepted = r.netto_price ∧
        ∀ (j : Nat) (d : models.ReservationDay), r.day_prices[j]? = some d →
          (d.id ∈ (price_ids.getD []).filter (fun x => 0 < x) →
            r2.day_prices[j]? = some { d with price_original := d.price_changed,
                                              price_accepted := d.price_changed }) ∧
          (d.id ∉ (price_ids.getD []).filter (fun x => 0 < x) →
            r2.day_prices[j]? = some d) := by
  unfold models.accept
  simp only [hm, Bool.false_eq_true, if_false]
  refine ⟨trivial, trivial, trivial, trivial, trivial, ?_⟩
  intro i r hr hdel
  refine ⟨models.accept_room ((price_ids.getD []).filter (fun x => 0 < x)) r,
    by simp [List.getElem?_map, hr], ?_, ?_, ?_, ?_⟩ <;>
    unfold models.accept_room <;>
    simp only [hdel, Bool.false_eq_true, if_false]
  · split <;> rfl
  · split <;> rfl
  · split <;> rfl
  · intro j d hd
    constructor
    · intro hin
      split <;> simp [List.getElem?_map, hd, models.accept_day_price, hin]
    · intro hout
      split <;> simp [List.getElem?_map, hd, models.accept_day_price, hout]

/-- Closed witness: C1 (amended) applied to the concrete reservation with the
filter `[1]`. -/
theorem accept_commits_filtered_days_witness :
    c1_reservation.is_verified = false ∧
    (models.accept c1_reservation (some [1]) 0).price_accepted = c1_reservation.price := by
  refine ⟨rfl, ?_⟩
  exact (accept_commits_filtered_days c1_reservation (some [1]) 0 rfl).1

end accept_filter_theorems

section index_lemmas

variable {κ : Type} {α : Type} [BEq κ] [LawfulBEq κ]

theorem lookup_map_replace (idx : List (κ × α)) (k : κ) (v : α) (k2 : κ) (v2 : α)
    (h : ((idx.map (fun p => if p.1 == k then (k, v) else p)).lookup k2 = some v2)) :
    (k2 = k ∧ v2 = v) ∨ idx.lookup k2 = some v2 := by
  induction idx with
  | nil => simp [List.lookup] at h
  | cons p rest ih =>
    cases hp : (p.1 == k) with
    | true =>
      have h2 : (((k, v) :: rest.map (fun p => if p.1 == k then (k, v) else p)).lookup k2)
          = some v2 := by
        rw [List.map_cons, if_pos hp] at h
        exact h
      rw [List.lookup_cons] at h2
      cases hb : (k2 == k) with
      | true =>
        rw [hb] at h2
        have h3 : some v = some v2 := h2
        exact Or.inl ⟨eq_of_beq hb, by injection h3 with h4; exact h4.symm⟩
      | false =>
        rw [hb] at h2
        have h4 : (rest.map (fun p => if p.1 == k then (k, v) else p)).lookup k2
            = some v2 := h2
        rcases ih h4 with h1 | h1
        · exact Or.inl h1
        · refine Or.inr ?_
          rw [List.lookup_cons, eq_of_beq hp, hb]
          exact h1
    | false =>
      have h2 : ((p :: rest.map (fun p => if p.1 == k then (k, v) else p)).lookup k2)
          = some v2 := by
        rw [List.map_cons, if_neg (by simp [hp])] at h
        exact h
      rw [List.lookup_cons] at h2
      cases hb : (k2 == p.1) with
      | true =>
        rw [hb] at h2
        refine Or.inr ?_
        rw [List.lookup_cons, hb]
        exact h2
      | false =>
        rw [hb] at h2
        have h4 : (rest.map (fun p => if p.1 == k then (k, v) else p)).lookup k2
            = some v2 := h2
        rcases ih h4 with h1 | h1
        · exact Or.inl h1
        · refine Or.inr ?_
          rw [List.lookup_cons, hb]
          exact h1

theorem lookup_append_single (idx : List (κ × α)) (k : κ) (v : α) (k2 : κ) (v2 : α)
    (h : (idx ++ [(k, v)]).lookup k2 = some v2) :
    (k2 = k ∧ v2 = v) ∨ idx.lookup k2 = some v2 := by
  induction idx with
  | nil =>
    rw [List.nil_append, List.lookup_cons] at h
    cases hb : (k2 == k) with
    | true =>
      rw [hb] at h
      have h2 : some v = some v2 := h
      exact Or.inl ⟨eq_of_beq hb, by injection h2 with h3; exact h3.symm⟩
    | false =>
      rw [hb] at h
      have h2 : ([] : List (κ × α)).lookup k2 = some v2 := h
      simp [List.lookup] at h2
  | cons p rest ih =>
    rw [List.cons_append, List.lookup_cons] at h
    cases hb : (k2 == p.1) with
    | true =>
      rw [hb] at h
      refine Or.inr ?_
      rw [List.lookup_cons, hb]
      exact h
    | false =>
      rw [hb] at h
      have h2 : (rest ++ [(k, v)]).lookup k2 = some v2 := h
      rcases ih h2 with h1 | h1
      · exact Or.inl h1
      · refine Or.inr ?_
        rw [List.lookup_cons, hb]
        exact h1

theorem lookup_dict_insert (idx : List (κ × α)) (k : κ) (v : α) (k2 : κ) (v2 : α)
    (h : (dict_insert idx k v).lookup k2 = some v2) :
    (k2 = k ∧ v2 = v) ∨ idx.lookup k2 = some v2 := by
  unfold dict_insert at h
  by_cases hp : (idx.lookup k).isSome
  · rw [if_pos hp] at h
    exact lookup_map_replace idx k v k2 v2 h
  · rw [if_neg hp] at h
    exact lookup_append_single idx k v k2 v2 h

theorem build_index_lookup {l : List α} {key : α → κ} {k : κ} {v : α}
    (h : (build_index l key).lookup k = some v) : v ∈ l ∧ key v = k := by
  induction l using List.reverseRecOn with
  | nil => simp [build_index, List.lookup] at h
  | append_singleton l2 x ih =>
    unfold build_index at h
    rw [List.foldl_append] at h
    simp only [List.foldl_cons, List.foldl_nil] at h
    rcases lookup_dict_insert _ _ _ _ _ h with ⟨hk, hv⟩ | h1
    · subst hv
      exact ⟨by simp, hk.symm⟩
    · have h2 := ih h1
      exact ⟨by simp [h2.1], h2.2⟩

end index_lemmas

section merge_lemmas

open ota entities

theorem merge_day_step_some (room_id : Option Int)
    (idx : List (Date × entities.ReservationDay)) (acc : List entities.ReservationDay)
    (b : Bool) (pd : OtaReservationPrice) (price : entities.ReservationDay)
    (hl : idx.lookup pd.day = some price) :
    merge_day_step room_id idx (acc, b) pd =
      (acc ++ [(price.update pd).1], b || (price.update pd).2) := by
  unfold merge_day_step
  rw [hl]

theorem merge_day_step_none (room_id : Option Int)
    (idx : List (Date × entities.ReservationDay)) (acc : List entities.ReservationDay)
    (b : Bool) (pd : OtaReservationPrice) (hl : idx.lookup pd.day = none) :
    merge_day_step room_id idx (acc, b) pd =
      (acc ++ [entities.ReservationDay.load room_id pd], b || true) := by
  unfold merge_day_step
  rw [hl]

theorem merge_room_step_some (reservation_id : Option Int)
    (idx : List (Option String × entities.ReservationRoom))
    (acc : List entities.ReservationRoom) (b : Bool) (rd : OtaReservationRoom)
    (room : entities.ReservationRoom) (hl : idx.lookup rd.external_id = some room) :
    merge_room_step reservation_id idx (acc, b) rd =
      (acc ++ [(room.update rd).1], b || (room.update rd).2) := by
  unfold merge_room_step
  rw [hl]

theorem merge_room_step_none (reservation_id : Option Int)
    (idx : List (Option String × entities.ReservationRoom))
    (acc : List entities.ReservationRoom) (b : Bool) (rd : OtaReservationRoom)
    (hl : idx.lookup rd.external_id = none) :
    merge_room_step reservation_id idx (acc, b) rd =
      (acc ++ [entities.ReservationRoom.load reservation_id rd], b || true) := by
  unfold merge_room_step
  rw [hl]

theorem merge_day_foldl_snd (room_id : Option Int)
    (idx : List (Date × entities.ReservationDay)) (data : List OtaReservationPrice)
    (acc : List entities.ReservationDay) (b : Bool) :
    (data.foldl (merge_day_step room_id idx) (acc, b)).2 =
      (b || data.any (fun pd =>
        match idx.lookup pd.day with
        | some price => (price.update pd).2
        | none => true)) := by
  induction data generalizing acc b with
  | nil => simp
  | cons pd rest ih =>
    rw [List.foldl_cons]
    cases hl : idx.lookup pd.day with
    | some price =>
      rw [merge_day_step_some room_id idx acc b pd price hl, ih]
      rw [List.any_cons, hl, Bool.or_assoc]
    | none =>
      rw [merge_day_step_none room_id idx acc b pd hl, ih]
      rw [List.any_cons, hl, Bool.or_assoc]

theorem merge_day_foldl_fst (room_id : Option Int)
    (idx : List (Date × entities.ReservationDay)) (data : List OtaReservationPrice)
    (acc : List entities.ReservationDay) (b : Bool) :
    (data.foldl (merge_day_step room_id idx) (acc, b)).1 =
      acc ++ data.map (fun pd =>
        match idx.lookup pd.day with
        | some price => (price.update pd).1
        | none => entities.ReservationDay.load room_id pd) := by
  induction data generalizing acc b with
  | nil => simp
  | cons pd rest ih =>
    rw [List.foldl_cons]
    cases hl : idx.lookup pd.day with
    | some price =>
      rw [merge_day_step_some room_id idx acc b pd price hl, ih]
      simp [hl]
    | none =>
      rw [merge_day_step_none room_id idx acc b pd hl, ih]
      simp [hl]

theorem merge_room_foldl_snd (reservation_id : Option Int)
    (idx : List (Option String × entities.ReservationRoom))
    (data : List OtaReservationRoom)
    (acc : List entities.ReservationRoom) (b : Bool) :
    (data.foldl (merge_room_step reservation_id idx) (acc, b)).2 =
      (b || data.any (fun rd =>
        match idx.lookup rd.external_id with
        | some room => (room.update rd).2
        | none => true)) := by
  induction data generalizing acc b with
  | nil => simp
  | cons rd rest ih =>
    rw [List.foldl_cons]
    cases hl : idx.lookup rd.external_id with
    | some room =>
      rw [merge_room_step_some reservation_id idx acc b rd room hl, ih]
      rw [List.any_cons, hl, Bool.or_assoc]
    | none =>
      rw [merge_room_step_none reservation_id idx acc b rd hl, ih]
      rw [List.any_cons, hl, Bool.or_assoc]

theorem merge_room_foldl_fst (reservation_id : Option Int)
    (idx : List (Option String × entities.ReservationRoom))
    (data : List OtaReservationRoom)
    (acc : List entities.ReservationRoom) (b : Bool) :
    (data.foldl (merge_room_step reservation_id idx) (acc, b)).1 =
      acc ++ data.map (fun rd =>
        match idx.lookup rd.external_id with
        | some room => (room.update rd).1
        | none => entities.ReservationRoom.load reservation_id rd) := by
  induction data generalizing acc b with
  | nil => simp
  | cons rd rest ih =>
    rw [List.foldl_cons]
    cases hl : idx.lookup rd.external_id with
    | some room =>
      rw [merge_room_step_some reservation_id idx acc b rd room hl, ih]
      simp [hl]
    | none =>
      rw [merge_room_step_none reservation_id idx acc b rd hl, ih]
      simp [hl]

/-- Flag characterisation of the day-level merge: only a `price_changed`
inequality raises it. -/
theorem day_update_snd_iff (self : entities.ReservationDay)
    (data : OtaReservationPrice) :
    (self.update data).2 = true ↔ self.price_changed ≠ data.price := by
  unfold entities.ReservationDay.update
  simp

/-- Flag characterisation of the room-level merge. -/
theorem room_update_snd_iff (self : entities.ReservationRoom)
    (data : OtaReservationRoom) :
    (self.update data).2 = true ↔
      (self.checkin ≠ data.checkin ∨ self.checkout ≠ data.checkout ∨
       self.channel_rate_id ≠ data.channel_rate_id ∨
       ∃ pd ∈ data.day_prices,
         ∀ price, (build_index self.day_prices (fun x => x.day)).lookup pd.day =
            some price → price.price_changed ≠ pd.price) := by
  unfold entities.ReservationRoom.update entities.merge_day_prices
  rw [merge_day_foldl_snd]
  simp only [Bool.or_eq_true, List.any_eq_true, decide_eq_true_eq, ne_eq]
  constructor
  · rintro (((h | h) | h) | ⟨pd, hpd, h⟩)
    · exact Or.inl h
    · exact Or.inr (Or.inl h)
    · exact Or.inr (Or.inr (Or.inl h))
    · refine Or.inr (Or.inr (Or.inr ⟨pd, hpd, ?_⟩))
      intro price hl
      rw [hl] at h
      rw [day_update_snd_iff] at h
      exact h
  · rintro (h | h | h | ⟨pd, hpd, h⟩)
    · exact Or.inl (Or.inl (Or.inl h))
    · exact Or.inl (Or.inl (Or.inr h))
    · exact Or.inl (Or.inr h)
    · refine Or.inr ⟨pd, hpd, ?_⟩
      cases hl : (build_index self.day_prices (fun x => x.day)).lookup pd.day with
      | some price =>
        rw [day_update_snd_iff]
        exact h price hl
      | none => rfl

/-- Flag characterisation of the reservation-level merge. -/
theorem res_update_snd_iff (self : entities.Reservation) (data : OtaReservation) :
    (self.update data).2 = true ↔
      (self.checkin ≠ data.checkin ∨ self.checkout ≠ data.checkout ∨
       ∃ rd ∈ data.rooms,
         ∀ room, (build_index self.rooms (fun x => x.external_id)).lookup
            rd.external_id = some room → (room.update rd).2 = true) := by
  unfold entities.Reservation.update entities.merge_rooms
  rw [merge_room_foldl_snd]
  simp only [Bool.or_eq_true, List.any_eq_true, decide_eq_true_eq, ne_eq]
  constructor
  · rintro ((h | h) | ⟨rd, hrd, h⟩)
    · exact Or.inl h
    · exact Or.inr (Or.inl h)
    · refine Or.inr (Or.inr ⟨rd, hrd, ?_⟩)
      intro room hl
      rw [hl] at h
      exact h
  · rintro (h | h | ⟨rd, hrd, h⟩)
    · exact Or.inl (Or.inl h)
    · exact Or.inl (Or.inr h)
    · refine Or.inr ⟨rd, hrd, ?_⟩
      cases hl : (build_index self.rooms (fun x => x.external_id)).lookup rd.external_id with
      | some room => exact h room hl
      | none => rfl

end merge_lemmas

section sample_entities

/-- A concrete snapshot day price. -/
def sample_ota_price : ota.OtaReservationPrice where
  day := 0
  price := 10
  tax := 1
  currency := some "E"
  roomtype_id := some 1

/-- A concrete existing day entity whose proposed price equals the snapshot
price but differs from its accepted price. -/
def sample_day : entities.ReservationDay where
  id := some 31
  reservation_room_id := some 21
  day := 0
  roomtype_id := some 1
  room_id := none
  price_changed := 10
  price_accepted := 5
  tax := 1
  currency := some "E"
  price_original := 5

/-- A concrete snapshot room scalar-equal to `sample_room`. -/
def sample_ota_room : ota.OtaReservationRoom where
  channel_id := "ch"
  channel_rate_id := "cr"
  rate_plan_id := some 3
  policy := []
  checkin := 0
  checkout := 2
  external_id := some "x"
  external_name := "n"
  guest_name := "g"
  guest_count := 2
  adults := 2
  children := 0
  max_children := 0
  extra_bed := 0
  with_breakfast := false
  currency := some "E"
  price := 20
  netto_price := 18
  tax := 1
  fees := 0
  notes_extra := ""
  notes_facilities := ""
  notes_info := ""
  notes_meal := ""
  day_prices := [sample_ota_price]

/-- A concrete existing room entity holding `sample_day`. -/
def sample_room : entities.ReservationRoom where
  id := some 21
  reservation_id := some 11
  channel_id := "ch"
  channel_rate_id := "cr"
  checkin := 0
  checkout := 2
  rate_plan_id := some 3
  rate_id := none
  external_id := some "x"
  external_name := "n"
  guest_name := "g"
  guest_count := 2
  adults := 2
  children := 0
  max_children := 0
  extra_bed := 0
  with_breakfast := false
  currency := some "E"
  policy := []
  price := 20
  price_accepted := 15
  netto_price := 18
  netto_price_accepted := 15
  tax := 1
  fees := 0
  notes_extra := ""
  notes_facilities := ""
  notes_info := ""
  notes_meal := ""
  day_prices := [sample_day]
  checkin_original := some 0
  checkout_original := some 2
  rate_plan_id_original := some 3
  policy_original := some []
  is_deleted := false
  deleted_at := none

/-- A concrete snapshot scalar-equal to `sample_res`. -/
def sample_ota_res : ota.OtaReservation where
  channel_id := "cid"
  checkin := 0
  checkout := 2
  booking_date := 100
  status := .NEW
  room_count := 1
  currency := some "E"
  price := 20
  netto_price := 18
  tax := 1
  fees := 0
  promo := ""
  payment_info := ""
  guest := none
  creditcard_info := none
  rooms := [sample_ota_room]

/-- A concrete existing reservation aggregate holding `sample_room`. -/
def sample_res : entities.Reservation where
  id := some 11
  house_id := 1
  channel_id := "cid"
  checkin := 0
  checkout := 2
  booked_at := 100
  status := .NEW
  room_count := 1
  currency := some "E"
  price := 20
  price_accepted := 19
  netto_price := 18
  netto_price_accepted := 17
  tax := 1
  fees := 0
  guest_name := ""
  guest_surname := ""
  guest_email := ""
  guest_phone := ""
  guest_country := ""
  guest_nationality := ""
  guest_city := ""
  guest_address := ""
  guest_post_code := ""
  guest_comments := ""
  guest_contact_id := none
  guest_contact_ids := []
  promo := ""
  payment_info := ""
  creditcard_info := []
  is_verified := false
  verified_at := none
  opportunity_id := none
  quotation_id := none
  rooms := [sample_room]

end sample_entities

section merge_claim_theorems

/-- A snapshot identical to `sample_ota_res` except for its total price. -/
def c2_snap : ota.OtaReservation := { sample_ota_res with price := 200 }

/-- C2 counterexample: a snapshot differing from the stored aggregate only in
the reservation `price` overwrites the local value (the merge result carries
200) yet returns `changed = false` — the inequality in a mapping-table field
does **not** set the flag, contradicting the claim that any inequality in a
stable scalar field sets `changed = true`. -/
theorem merge_silent_overwrite_counterexample :
    sample_res.price = 20 ∧ c2_snap.price = 200 ∧
    (sample_res.update c2_snap).1.price = 200 ∧
    (sample_res.update c2_snap).2 = false := by
  refine ⟨rfl, rfl, rfl, ?_⟩
  decide

/-- C2 (amended): at each of the three levels the merge overwrites every
mapping-table scalar field with the snapshot value, but the `changed` flag is
raised only by the designated comparisons — `price_changed` for a day;
`checkin`, `checkout`, `channel_rate_id` or a day-level change for a room;
`checkin`, `checkout` or a room-level change for a reservation.  Inequalities
in the remaining mapped fields overwrite silently. -/
theorem merge_overwrites_all_flags_designated :
    (∀ (self : entities.ReservationDay) (data : ota.OtaReservationPrice),
      (self.update data).1.price_changed = data.price ∧
      (self.update data).1.tax = data.tax ∧
      (self.update data).1.currency = data.currency ∧
      ((self.update data).2 = true ↔ self.price_changed ≠ data.price)) ∧
    (∀ (self : entities.ReservationRoom) (data : ota.OtaReservationRoom),
      (self.update data).1.price = data.price ∧
      (self.update data).1.netto_price = data.netto_price ∧
      (self.update data).1.tax = data.tax ∧
      (self.update data).1.rate_plan_id = data.rate_plan_id ∧
      (self.update data).1.policy = data.policy ∧
      (self.update data).1.checkin = data.checkin ∧
      (self.update data).1.checkout = data.checkout ∧
      (self.update data).1.channel_rate_id = data.channel_rate_id ∧
      ((self.update data).2 = true ↔
        (self.checkin ≠ data.checkin ∨ self.checkout ≠ data.checkout ∨
         self.channel_rate_id ≠ data.channel_rate_id ∨
         ∃ pd ∈ data.day_prices,
           ∀ price, (build_index self.day_prices (fun x => x.day)).lookup pd.day =
              some price → price.price_changed ≠ pd.price))) ∧
    (∀ (self : entities.Reservation) (data : ota.OtaReservation),
      (self.update data).1.price = data.price ∧
      (self.update data).1.netto_price = data.netto_price ∧
      (self.update data).1.tax = data.tax ∧
      (self.update data).1.status = data.status ∧
      (self.update data).1.checkin = data.checkin ∧
      (self.update data).1.checkout = data.checkout ∧
      ((self.update data).2 = true ↔
        (self.checkin ≠ data.checkin ∨ self.checkout ≠ data.checkout ∨
         ∃ rd ∈ data.rooms,
           ∀ room, (build_index self.rooms (fun x => x.external_id)).lookup
              rd.external_id = some room → (room.update rd).2 = true))) := by
  refine ⟨?_, ?_, ?_⟩
  · intro self data
    exact ⟨rfl, rfl, rfl, day_update_snd_iff self data⟩
  · intro self data
    exact ⟨rfl, rfl, rfl, rfl, rfl, rfl, rfl, rfl, room_update_snd_iff self data⟩
  · intro self data
    exact ⟨rfl, rfl, rfl, rfl, rfl, rfl, res_update_snd_iff self data⟩

/-- C7: merging a scalar-equal snapshot yields `changed = false` at all three
levels; the day-level part needs only equality with the *proposed* price
(`price_changed`), so a snapshot price differing from `price_accepted` is
still not flagged. -/
theorem merge_idempotent_on_equal_snapshot :
    (∀ (self : entities.ReservationDay) (data : ota.OtaReservationPrice),
      data.price = self.price_changed → (self.update data).2 = false) ∧
    (∀ (self : entities.ReservationRoom) (data : ota.OtaReservationRoom),
      data.checkin = self.checkin → data.checkout = self.checkout →
      data.channel_rate_id = self.channel_rate_id →
      (∀ pd ∈ data.day_prices, ∃ price : entities.ReservationDay,
        (build_index self.day_prices (fun x => x.day)).lookup pd.day = some price ∧
        pd.price = price.price_changed) →
      (self.update data).2 = false) ∧
    (∀ (self : entities.Reservation) (data : ota.OtaReservation),
      data.checkin = self.checkin → data.checkout = self.checkout →
      (∀ rd ∈ data.rooms, ∃ room : entities.ReservationRoom,
        (build_index self.rooms (fun x => x.external_id)).lookup rd.external_id =
          some room ∧ (room.update rd).2 = false) →
      (self.update data).2 = false) := by
  refine ⟨?_, ?_, ?_⟩
  · intro self data h
    rw [← Bool.not_eq_true, day_update_snd_iff]
    intro hc
    exact hc h.symm
  · intro self data h1 h2 h3 h4
    rw [← Bool.not_eq_true, room_update_snd_iff]
    rintro (hc | hc | hc | ⟨pd, hpd, hc⟩)
    · exact hc h1.symm
    · exact hc h2.symm
    · exact hc h3.symm
    · obtain ⟨price, hl, hp⟩ := h4 pd hpd
      exact hc price hl hp.symm
  · intro self data h1 h2 h3
    rw [← Bool.not_eq_true, res_update_snd_iff]
    rintro (hc | hc | ⟨rd, hrd, hc⟩)
    · exact hc h1.symm
    · exact hc h2.symm
    · obtain ⟨room, hl, hfalse⟩ := h3 rd hrd
      have := hc room hl
      rw [hfalse] at this
      exact Bool.false_ne_true this

/-- Closed witness: C7 applied to the concrete scalar-equal sample aggregate;
the snapshot day price (10) equals the proposed price but not the accepted
price (5), and no level flags a change. -/
theorem merge_idempotent_on_equal_snapshot_witness :
    sample_ota_price.price = sample_day.price_changed ∧
    sample_day.price_accepted ≠ sample_day.price_changed ∧
    (sample_day.update sample_ota_price).2 = false ∧
    (sample_room.update sample_ota_room).2 = false ∧
    (sample_res.update sample_ota_res).2 = false := by
  refine ⟨rfl, by decide, merge_idempotent_on_equal_snapshot.1 sample_day sample_ota_price rfl,
    merge_idempotent_on_equal_snapshot.2.1 sample_room sample_ota_room rfl rfl rfl ?_,
    merge_idempotent_on_equal_snapshot.2.2 sample_res sample_ota_res rfl rfl ?_⟩
  · intro pd hpd
    obtain rfl : pd = sample_ota_price := List.mem_singleton.mp hpd
    exact ⟨sample_day, by decide, rfl⟩
  · intro rd hrd
    obtain rfl : rd = sample_ota_room := List.mem_singleton.mp hrd
    exact ⟨sample_room, by decide, by decide⟩

end merge_claim_theorems

section frame_claim_theorems

/-- C8: the merge never modifies fields absent from the mapping tables — the
accepted prices and the `*_original` baselines are preserved at every level:
directly on the updated record, and, through the child merges, on every room
or day that survives from the existing aggregate (a fresh child instead
carries the `load` defaults). -/
theorem merge_never_touches_accepted_or_originals :
    (∀ (self : entities.ReservationDay) (data : ota.OtaReservationPrice),
      (self.update data).1.price_accepted = self.price_accepted ∧
      (self.update data).1.price_original = self.price_original ∧
      (self.update data).1.id = self.id) ∧
    (∀ (self : entities.ReservationRoom) (data : ota.OtaReservationRoom),
      (self.update data).1.price_accepted = self.price_accepted ∧
      (self.update data).1.netto_price_accepted = self.netto_price_accepted ∧
      (self.update data).1.checkin_original = self.checkin_original ∧
      (self.update data).1.checkout_original = self.checkout_original ∧
      (self.update data).1.rate_plan_id_original = self.rate_plan_id_original ∧
      (self.update data).1.policy_original = self.policy_original ∧
      (self.update data).1.id = self.id) ∧
    (∀ (self : entities.Reservation) (data : ota.OtaReservation),
      (self.update data).1.price_accepted = self.price_accepted ∧
      (self.update data).1.netto_price_accepted = self.netto_price_accepted ∧
      (self.update data).1.is_verified = self.is_verified ∧
      (self.update data).1.verified_at = self.verified_at ∧
      (self.update data).1.id = self.id) ∧
    (∀ (self : entities.ReservationRoom) (data : ota.OtaReservationRoom),
      ∀ d2 ∈ (self.update data).1.day_prices,
        (∃ d ∈ self.day_prices,
          d2.price_accepted = d.price_accepted ∧
          d2.price_original = d.price_original) ∨
        (d2.price_accepted = 0 ∧ d2.price_original = 0)) ∧
    (∀ (self : entities.Reservation) (data : ota.OtaReservation),
      ∀ r2 ∈ (self.update data).1.rooms,
        (∃ r ∈ self.rooms,
          r2.price_accepted = r.price_accepted ∧
          r2.netto_price_accepted = r.netto_price_accepted ∧
          r2.checkin_original = r.checkin_original ∧
          r2.checkout_original = r.checkout_original ∧
          r2.rate_plan_id_original = r.rate_plan_id_original ∧
          r2.policy_original = r.policy_original) ∨
        (r2.price_accepted = 0 ∧ r2.netto_price_accepted = 0 ∧
         r2.checkin_original = none ∧ r2.checkout_original = none ∧
         r2.rate_plan_id_original = none ∧ r2.policy_original = none)) := by
  refine ⟨fun self data => ⟨rfl, rfl, rfl⟩,
          fun self data => ⟨rfl, rfl, rfl, rfl, rfl, rfl, rfl⟩,
          fun self data => ⟨rfl, rfl, rfl, rfl, rfl⟩, ?_, ?_⟩
  · intro self data d2 hd2
    have hlist : (self.update data).1.day_prices =
        [] ++ data.day_prices.map (fun pd =>
          match (build_index self.day_prices (fun x => x.day)).lookup pd.day with
          | some price => (price.update pd).1
          | none => entities.ReservationDay.load self.id pd) := by
      rw [show (self.update data).1.day_prices =
        (entities.merge_day_prices self.id (build_index self.day_prices (fun x => x.day))
          data.day_prices
          (self.checkin ≠ data.checkin || self.checkout ≠ data.checkout ||
            self.channel_rate_id ≠ data.channel_rate_id)).1 from rfl]
      rw [entities.merge_day_prices]
      exact merge_day_foldl_fst _ _ _ _ _
    rw [hlist, List.nil_append] at hd2
    obtain ⟨pd, hpd, heq⟩ := List.mem_map.mp hd2
    cases hl : (build_index self.day_prices (fun x => x.day)).lookup pd.day with
    | some price =>
      rw [hl] at heq
      obtain ⟨hmem, _⟩ := build_index_lookup hl
      exact Or.inl ⟨price, hmem, by rw [← heq]; rfl, by rw [← heq]; rfl⟩
    | none =>
      rw [hl] at heq
      exact Or.inr ⟨by rw [← heq]; rfl, by rw [← heq]; rfl⟩
  · intro self data r2 hr2
    have hlist : (self.update data).1.rooms =
        [] ++ data.rooms.map (fun rd =>
          match (build_index self.rooms (fun x => x.external_id)).lookup rd.external_id with
          | some room => (room.update rd).1
          | none => entities.ReservationRoom.load self.id rd) := by
      rw [show (self.update data).1.rooms =
        (entities.merge_rooms self.id (build_index self.rooms (fun x => x.external_id))
          data.rooms
          (self.checkin ≠ data.checkin || self.checkout ≠ data.checkout)).1 from rfl]
      rw [entities.merge_rooms]
      exact merge_room_foldl_fst _ _ _ _ _
    rw [hlist, List.nil_append] at hr2
    obtain ⟨rd, hrd, heq⟩ := List.mem_map.mp hr2
    cases hl : (build_index self.rooms (fun x => x.external_id)).lookup rd.external_id with
    | some room =>
      rw [hl] at heq
      obtain ⟨hmem, _⟩ := build_index_lookup hl
      exact Or.inl ⟨room, hmem, by rw [← heq]; rfl, by rw [← heq]; rfl,
        by rw [← heq]; rfl, by rw [← heq]; rfl, by rw [← heq]; rfl,
        by rw [← heq]; rfl⟩
    | none =>
      rw [hl] at heq
      exact Or.inr ⟨by rw [← heq]; rfl, by rw [← heq]; rfl, by rw [← heq]; rfl,
        by rw [← heq]; rfl, by rw [← heq]; rfl, by rw [← heq]; rfl⟩

/-- Closed witness: C8's child clause applied to the concrete sample room and
its merged day — the surviving day keeps its accepted and original prices. -/
theorem merge_never_touches_accepted_or_originals_witness :
    (∃ d ∈ sample_room.day_prices,
      ((sample_day.update sample_ota_price).1).price_accepted = d.price_accepted ∧
      ((sample_day.update sample_ota_price).1).price_original = d.price_original) ∨
    (((sample_day.update sample_ota_price).1).price_accepted = 0 ∧
     ((sample_day.update sample_ota_price).1).price_original = 0) := by
  refine merge_never_touches_accepted_or_originals.2.2.2.1 sample_room sample_ota_room
    ((sample_day.update sample_ota_price).1) ?_
  decide

end frame_claim_theorems

namespace usecases

open discounts

/-- Eligibility of a last-minute rule for a day, as the spec words it: the
rule's window contains the day and `days_before` is at least the number of
days between today and that day. -/
def lm_eligible (x : LastMinDiscount) (today day : Date) : Prop :=
  day - today ≤ x.days_before ∧ x.start_date ≤ day ∧ day ≤ x.end_date

/-- Eligibility of an availability rule for a day as the code implements it:
the rule's `free_rooms` threshold does not exceed the free-room inventory
(`x.free_rooms <= (inventory or 0)`), and the day is inside the window. -/
def av_eligible (x : AvailabilityDiscount) (day : Date) (inventory : Option Int) : Prop :=
  x.free_rooms ≤ inventory.getD 0 ∧ x.start_date ≤ day ∧ day ≤ x.end_date

/-- Availability eligibility as the spec words it ("the day's free-room
inventory count ≤ the rule's `free_rooms` threshold") — the opposite
comparison direction; kept for the refutation. -/
def av_eligible_spec (x : AvailabilityDiscount) (day : Date) (inventory : Option Int) : Prop :=
  inventory.getD 0 ≤ x.free_rooms ∧ x.start_date ≤ day ∧ day ≤ x.end_date

/-- Eligibility of a length-of-stay rule: total stay length reaches the
rule's `nights` threshold and the day is inside the window. -/
def los_eligible (x : LOSDiscount) (day : Date) (nights : Int) : Prop :=
  x.nights ≤ nights ∧ x.start_date ≤ day ∧ day ≤ x.end_date

theorem max_discount_foldl_mem (x : Int) (xs : List Int) :
    xs.foldl max x ∈ x :: xs := by
  induction xs generalizing x with
  | nil => simp
  | cons y ys ih =>
    rw [List.foldl_cons]
    rcases List.mem_cons.mp (ih (max x y)) with h1 | h1
    · rcases max_choice x y with h2 | h2
      · rw [h1, h2]
        exact List.mem_cons_self x (y :: ys)
      · rw [h1, h2]
        exact List.mem_cons_of_mem x (List.mem_cons_self y ys)
    · exact List.mem_cons_of_mem x (List.mem_cons_of_mem y h1)

theorem le_max_discount_foldl (x : Int) (xs : List Int) :
    ∀ y ∈ x :: xs, y ≤ xs.foldl max x := by
  induction xs generalizing x with
  | nil =>
    intro y hy
    rcases List.mem_cons.mp hy with h | h
    · exact h ▸ le_refl x
    · simp at h
  | cons z zs ih =>
    intro y hy
    rw [List.foldl_cons]
    rcases List.mem_cons.mp hy with h | h
    · subst h
      exact le_trans (le_max_left y z) (ih (max y z) _ (List.mem_cons_self _ _))
    · rcases List.mem_cons.mp h with h1 | h1
      · subst h1
        exact le_trans (le_max_right x y) (ih (max x y) _ (List.mem_cons_self _ _))
      · exact ih (max x z) y (List.mem_cons_of_mem _ h1)

theorem max_discount_spec (l : List Int) (hne : l ≠ []) :
    ∃ m, max_discount l = some m ∧ m ∈ l ∧ ∀ y ∈ l, y ≤ m := by
  cases l with
  | nil => exact absurd rfl hne
  | cons x xs =>
    exact ⟨xs.foldl max x, rfl, max_discount_foldl_mem x xs, le_max_discount_foldl x xs⟩

theorem lm_filter_mem (ds : List LastMinDiscount) (today day : Date) (x : LastMinDiscount) :
    x ∈ ds.filter (fun x => decide (day - today ≤ x.days_before) &&
        decide (x.start_date ≤ day) && decide (day ≤ x.end_date)) ↔
      x ∈ ds ∧ lm_eligible x today day := by
  rw [List.mem_filter]
  unfold lm_eligible
  simp [and_assoc]

theorem av_filter_mem (ds : List AvailabilityDiscount) (day : Date)
    (inventory : Option Int) (x : AvailabilityDiscount) :
    x ∈ ds.filter (fun x => decide (x.free_rooms ≤ inventory.getD 0) &&
        decide (x.start_date ≤ day) && decide (day ≤ x.end_date)) ↔
      x ∈ ds ∧ av_eligible x day inventory := by
  rw [List.mem_filter]
  unfold av_eligible
  simp [and_assoc]

theorem los_filter_mem (ds : List LOSDiscount) (day : Date) (nights : Int)
    (x : LOSDiscount) :
    x ∈ ds.filter (fun x => decide (x.nights ≤ nights) &&
        decide (x.start_date ≤ day) && decide (day ≤ x.end_date)) ↔
      x ∈ ds ∧ los_eligible x day nights := by
  rw [List.mem_filter]
  unfold los_eligible
  simp [and_assoc]

end usecases

namespace usecases

open discounts

theorem apply_lm_no_eligible (ds : List LastMinDiscount) (today day : Date)
    (v : Option Money) (h : ∀ x ∈ ds, ¬ lm_eligible x today day) :
    apply_last_minute_discount ds today day v = .ok v := by
  unfold apply_last_minute_discount
  dsimp only
  have hf : ds.filter (fun x => decide (day - today ≤ x.days_before) &&
      decide (x.start_date ≤ day) && decide (day ≤ x.end_date)) = [] := by
    rw [List.filter_eq_nil_iff]
    intro x hx
    intro hb
    exact h x hx ((lm_filter_mem ds today day x).mp (List.mem_filter.mpr ⟨hx, hb⟩)).2
  rw [hf]
  rfl

theorem apply_av_no_eligible (ds : List AvailabilityDiscount) (day : Date)
    (v : Option Money) (inventory : Option Int)
    (h : ∀ x ∈ ds, ¬ av_eligible x day inventory) :
    apply_availability_discount ds day v inventory = .ok v := by
  unfold apply_availability_discount
  dsimp only
  have hf : ds.filter (fun x => decide (x.free_rooms ≤ inventory.getD 0) &&
      decide (x.start_date ≤ day) && decide (day ≤ x.end_date)) = [] := by
    rw [List.filter_eq_nil_iff]
    intro x hx hb
    exact h x hx ((av_filter_mem ds day inventory x).mp (List.mem_filter.mpr ⟨hx, hb⟩)).2
  rw [hf]
  rfl

theorem apply_los_no_eligible (ds : List LOSDiscount) (day : Date)
    (v : Option Money) (nights : Int)
    (h : ∀ x ∈ ds, ¬ los_eligible x day nights) :
    apply_los_discount ds day v nights = .ok v := by
  unfold apply_los_discount
  dsimp only
  have hf : ds.filter (fun x => decide (x.nights ≤ nights) &&
      decide (x.start_date ≤ day) && decide (day ≤ x.end_date)) = [] := by
    rw [List.filter_eq_nil_iff]
    intro x hx hb
    exact h x hx ((los_filter_mem ds day nights x).mp (List.mem_filter.mpr ⟨hx, hb⟩)).2
  rw [hf]
  rfl

theorem apply_min_no_restriction (restrictions : List (Date × Money)) (day : Date)
    (v : Option Money) (h : restrictions.lookup day = none) :
    apply_min_price restrictions day v = .ok v := by
  unfold apply_min_price
  rw [if_pos]
  rw [h]
  simp

theorem apply_lm_some (ds : List LastMinDiscount) (today day : Date) (v : Money) :
    ∃ w, apply_last_minute_discount ds today day (some v) = .ok (some w) := by
  unfold apply_last_minute_discount
  dsimp only
  cases h : max_discount ((ds.filter (fun x => decide (day - today ≤ x.days_before) &&
      decide (x.start_date ≤ day) && decide (day ≤ x.end_date))).map (fun x => x.discount)) with
  | none => exact ⟨v, rfl⟩
  | some d => exact ⟨v * (1 - (d : ℚ) / 100), rfl⟩

theorem apply_av_some (ds : List AvailabilityDiscount) (day : Date) (v : Money)
    (inventory : Option Int) :
    ∃ w, apply_availability_discount ds day (some v) inventory = .ok (some w) := by
  unfold apply_availability_discount
  dsimp only
  cases h : max_discount ((ds.filter (fun x => decide (x.free_rooms ≤ inventory.getD 0) &&
      decide (x.start_date ≤ day) && decide (day ≤ x.end_date))).map (fun x => x.discount)) with
  | none => exact ⟨v, rfl⟩
  | some d => exact ⟨v * (1 - (d : ℚ) / 100), rfl⟩

theorem apply_los_some (ds : List LOSDiscount) (day : Date) (v : Money) (nights : Int) :
    ∃ w, apply_los_discount ds day (some v) nights = .ok (some w) := by
  unfold apply_los_discount
  dsimp only
  cases h : max_discount ((ds.filter (fun x => decide (x.nights ≤ nights) &&
      decide (x.start_date ≤ day) && decide (day ≤ x.end_date))).map (fun x => x.discount)) with
  | none => exact ⟨v, rfl⟩
  | some d => exact ⟨v * (1 - (d : ℚ) / 100), rfl⟩

theorem apply_min_some (restrictions : List (Date × Money)) (day : Date) (v : Money) :
    ∃ w, apply_min_price restrictions day (some v) = .ok (some w) ∧
      (∀ r, restrictions.lookup day = some r → w = max v r) ∧
      (restrictions.lookup day = none → w = v) := by
  unfold apply_min_price
  by_cases hc : (restrictions.isEmpty || (restrictions.lookup day).isNone) = true
  · refine ⟨v, by rw [if_pos hc], ?_, fun _ => rfl⟩
    intro r hr
    rcases Bool.or_eq_true _ _ |>.mp hc with h1 | h1
    · rw [List.isEmpty_iff.mp h1] at hr
      simp [List.lookup] at hr
    · rw [hr] at h1
      simp at h1
  · have hE : restrictions.isEmpty = false := by
      cases hE : restrictions.isEmpty
      · rfl
      · exact absurd (by rw [hE]; rfl :
          (restrictions.isEmpty || (restrictions.lookup day).isNone) = true) hc
    cases hr : restrictions.lookup day with
    | none =>
      exfalso
      apply hc
      rw [hr]
      simp
    | some r =>
      refine ⟨max v r, ?_, ?_, ?_⟩
      · rw [if_neg (by simp [hE] :
          ¬ (restrictions.isEmpty || (some r : Option Money).isNone) = true)]
        rfl
      · intro r2 hr2
        injection hr2 with h3
        rw [h3]
      · intro hn
        exact absurd hn (Option.some_ne_none r)

end usecases

namespace usecases

theorem map_prices_cons (f : Date → Option Money → Except Unit (Option Money))
    (d : Date) (v : Option Money) (rest : List (Date × Option Money)) :
    map_prices f ((d, v) :: rest) =
      (f d v).bind (fun v2 => (map_prices f rest).bind
        (fun rest2 => .ok ((d, v2) :: rest2))) := by
  rfl

theorem map_prices_pointwise (f : Date → Option Money → Except Unit (Option Money))
    (l : List (Date × Option Money))
    (h : ∀ d v, (d, v) ∈ l → ∃ w, f d v = .ok w) :
    ∃ l2, map_prices f l = .ok l2 ∧ l2.length = l.length ∧
      (∀ (i : Nat) (d : Date) (v : Option Money), l[i]? = some (d, v) →
        ∃ w, f d v = .ok w ∧ l2[i]? = some (d, w)) ∧
      (∀ d w, (d, w) ∈ l2 → ∃ v, (d, v) ∈ l ∧ f d v = .ok w) := by
  induction l with
  | nil =>
    refine ⟨[], rfl, rfl, ?_, ?_⟩
    · intro i d v hi
      simp at hi
    · intro d w hw
      simp at hw
  | cons p rest ih =>
    obtain ⟨d, v⟩ := p
    obtain ⟨w, hw⟩ := h d v (List.mem_cons_self _ _)
    obtain ⟨l2, hl2, hlen, hpt, hmem⟩ :=
      ih (fun d2 v2 hm => h d2 v2 (List.mem_cons_of_mem _ hm))
    refine ⟨(d, w) :: l2, ?_, by simp [hlen], ?_, ?_⟩
    · rw [map_prices_cons, hw, hl2]
      rfl
    · intro i d2 v2 hi
      cases i with
      | zero =>
        simp only [List.getElem?_cons_zero] at hi
        injection hi with h2
        obtain ⟨rfl, rfl⟩ := Prod.mk.injEq _ _ _ _ |>.mp h2
        exact ⟨w, hw, by simp⟩
      | succ n =>
        simp only [List.getElem?_cons_succ] at hi
        obtain ⟨w2, hw2, hl⟩ := hpt n d2 v2 hi
        exact ⟨w2, hw2, by simpa using hl⟩
    · intro d2 w2 hmem2
      rcases List.mem_cons.mp hmem2 with h2 | h2
      · obtain ⟨rfl, rfl⟩ := Prod.mk.injEq _ _ _ _ |>.mp h2
        exact ⟨v, List.mem_cons_self _ _, hw⟩
      · obtain ⟨v2, hv2, hfv⟩ := hmem d2 w2 h2
        exact ⟨v2, List.mem_cons_of_mem _ hv2, hfv⟩

theorem discounts_isEmpty_lm {d : Discounts} (h : d.isEmpty = true) :
    d.last_minute.getD [] = [] := by
  unfold Discounts.isEmpty at h
  simp only [Bool.and_eq_true, Option.isNone_iff_eq_none] at h
  rw [h.1.1]
  rfl

theorem discounts_isEmpty_av {d : Discounts} (h : d.isEmpty = true) :
    d.availability.getD [] = [] := by
  unfold Discounts.isEmpty at h
  simp only [Bool.and_eq_true, Option.isNone_iff_eq_none] at h
  rw [h.1.2]
  rfl

theorem discounts_isEmpty_los {d : Discounts} (h : d.isEmpty = true) :
    d.los.getD [] = [] := by
  unfold Discounts.isEmpty at h
  simp only [Bool.and_eq_true, Option.isNone_iff_eq_none] at h
  rw [h.2]
  rfl

end usecases

namespace usecases

open discounts

theorem check_lm_master (today : Date) (ctx : Context) (hr : ctx.rate.isSome = true)
    (h : ∀ d v, (d, v) ∈ ctx.prices →
      ∃ w, apply_last_minute_discount (ctx.discounts.last_minute.getD []) today d v = .ok w) :
    ∃ ctx2, check_last_minute_discounts today ctx = .ok ctx2 ∧
      ctx2 = { ctx with prices := ctx2.prices } ∧
      ctx2.prices.length = ctx.prices.length ∧
      (∀ (i : Nat) (d : Date) (v : Option Money), ctx.prices[i]? = some (d, v) →
        ∃ w, apply_last_minute_discount (ctx.discounts.last_minute.getD []) today d v =
            .ok w ∧ ctx2.prices[i]? = some (d, w)) ∧
      (∀ d w, (d, w) ∈ ctx2.prices →
        ∃ v, (d, v) ∈ ctx.prices ∧
          apply_last_minute_discount (ctx.discounts.last_minute.getD []) today d v = .ok w) := by
  have hrn : ctx.rate.isNone = false := by
    cases hx : ctx.rate with
    | none => rw [hx] at hr; simp at hr
    | some r => rfl
  unfold check_last_minute_discounts
  by_cases h1 : (ctx.discounts.isEmpty || ctx.rate.isNone || ctx.prices.isEmpty) = true
  · have hcases : ctx.discounts.last_minute.getD [] = [] ∨ ctx.prices = [] := by
      rcases Bool.or_eq_true _ _ |>.mp h1 with h2 | h2
      · rcases Bool.or_eq_true _ _ |>.mp h2 with h3 | h3
        · exact Or.inl (discounts_isEmpty_lm h3)
        · rw [hrn] at h3; simp at h3
      · exact Or.inr (List.isEmpty_iff.mp h2)
    refine ⟨ctx, by rw [if_pos h1], rfl, rfl, ?_, ?_⟩
    · intro i d v hi
      rcases hcases with hds | hpr
      · refine ⟨v, ?_, hi⟩
        rw [hds]
        exact apply_lm_no_eligible [] today d v (fun x hx => absurd hx (List.not_mem_nil x))
      · rw [hpr] at hi
        simp at hi
    · intro d w hw
      rcases hcases with hds | hpr
      · refine ⟨w, hw, ?_⟩
        rw [hds]
        exact apply_lm_no_eligible [] today d w (fun x hx => absurd hx (List.not_mem_nil x))
      · rw [hpr] at hw
        simp at hw
  · rw [if_neg h1]
    dsimp only
    by_cases h2 : (ctx.discounts.last_minute.getD []).isEmpty = true
    · rw [if_pos h2]
      have hds : ctx.discounts.last_minute.getD [] = [] := List.isEmpty_iff.mp h2
      refine ⟨ctx, rfl, rfl, rfl, ?_, ?_⟩
      · intro i d v hi
        refine ⟨v, ?_, hi⟩
        rw [hds]
        exact apply_lm_no_eligible [] today d v (fun x hx => absurd hx (List.not_mem_nil x))
      · intro d w hw
        refine ⟨w, hw, ?_⟩
        rw [hds]
        exact apply_lm_no_eligible [] today d w (fun x hx => absurd hx (List.not_mem_nil x))
    · rw [if_neg h2]
      obtain ⟨l2, hl2, hlen, hpt, hmem⟩ := map_prices_pointwise _ ctx.prices h
      refine ⟨{ ctx with prices := l2 }, ?_, rfl, hlen, hpt, hmem⟩
      show (map_prices _ ctx.prices).bind _ = _
      rw [hl2]
      rfl

theorem check_av_master (ctx : Context) (hr : ctx.rate.isSome = true)
    (h : ∀ d v, (d, v) ∈ ctx.prices →
      ∃ w, apply_availability_discount (ctx.discounts.availability.getD []) d v
        ((ctx.occupancies.lookup d).join) = .ok w) :
    ∃ ctx2, check_availability_discounts ctx = .ok ctx2 ∧
      ctx2 = { ctx with prices := ctx2.prices } ∧
      ctx2.prices.length = ctx.prices.length ∧
      (∀ (i : Nat) (d : Date) (v : Option Money), ctx.prices[i]? = some (d, v) →
        ∃ w, apply_availability_discount (ctx.discounts.availability.getD []) d v
            ((ctx.occupancies.lookup d).join) = .ok w ∧ ctx2.prices[i]? = some (d, w)) ∧
      (∀ d w, (d, w) ∈ ctx2.prices →
        ∃ v, (d, v) ∈ ctx.prices ∧
          apply_availability_discount (ctx.discounts.availability.getD []) d v
            ((ctx.occupancies.lookup d).join) = .ok w) := by
  have hrn : ctx.rate.isNone = false := by
    cases hx : ctx.rate with
    | none => rw [hx] at hr; simp at hr
    | some r => rfl
  unfold check_availability_discounts
  by_cases h1 : (ctx.discounts.isEmpty || ctx.rate.isNone || ctx.prices.isEmpty) = true
  · have hcases : ctx.discounts.availability.getD [] = [] ∨ ctx.prices = [] := by
      rcases Bool.or_eq_true _ _ |>.mp h1 with h2 | h2
      · rcases Bool.or_eq_true _ _ |>.mp h2 with h3 | h3
        · exact Or.inl (discounts_isEmpty_av h3)
        · rw [hrn] at h3; simp at h3
      · exact Or.inr (List.isEmpty_iff.mp h2)
    refine ⟨ctx, by rw [if_pos h1], rfl, rfl, ?_, ?_⟩
    · intro i d v hi
      rcases hcases with hds | hpr
      · refine ⟨v, ?_, hi⟩
        rw [hds]
        exact apply_av_no_eligible [] d v _ (fun x hx => absurd hx (List.not_mem_nil x))
      · rw [hpr] at hi
        simp at hi
    · intro d w hw
      rcases hcases with hds | hpr
      · refine ⟨w, hw, ?_⟩
        rw [hds]
        exact apply_av_no_eligible [] d w _ (fun x hx => absurd hx (List.not_mem_nil x))
      · rw [hpr] at hw
        simp at hw
  · rw [if_neg h1]
    dsimp only
    by_cases h2 : (ctx.discounts.availability.getD []).isEmpty = true
    · rw [if_pos h2]
      have hds : ctx.discounts.availability.getD [] = [] := List.isEmpty_iff.mp h2
      refine ⟨ctx, rfl, rfl, rfl, ?_, ?_⟩
      · intro i d v hi
        refine ⟨v, ?_, hi⟩
        rw [hds]
        exact apply_av_no_eligible [] d v _ (fun x hx => absurd hx (List.not_mem_nil x))
      · intro d w hw
        refine ⟨w, hw, ?_⟩
        rw [hds]
        exact apply_av_no_eligible [] d w _ (fun x hx => absurd hx (List.not_mem_nil x))
    · rw [if_neg h2]
      obtain ⟨l2, hl2, hlen, hpt, hmem⟩ := map_prices_pointwise _ ctx.prices h
      refine ⟨{ ctx with prices := l2 }, ?_, rfl, hlen, hpt, hmem⟩
      show (map_prices _ ctx.prices).bind _ = _
      rw [hl2]
      rfl

theorem check_los_master (ctx : Context) (hr : ctx.rate.isSome = true)
    (h : ∀ d v, (d, v) ∈ ctx.prices →
      ∃ w, apply_los_discount (ctx.discounts.los.getD []) d v
        (ctx.end_date - ctx.start_date) = .ok w) :
    ∃ ctx2, check_los_discounts ctx = .ok ctx2 ∧
      ctx2 = { ctx with prices := ctx2.prices } ∧
      ctx2.prices.length = ctx.prices.length ∧
      (∀ (i : Nat) (d : Date) (v : Option Money), ctx.prices[i]? = some (d, v) →
        ∃ w, apply_los_discount (ctx.discounts.los.getD []) d v
            (ctx.end_date - ctx.start_date) = .ok w ∧ ctx2.prices[i]? = some (d, w)) ∧
      (∀ d w, (d, w) ∈ ctx2.prices →
        ∃ v, (d, v) ∈ ctx.prices ∧
          apply_los_discount (ctx.discounts.los.getD []) d v
            (ctx.end_date - ctx.start_date) = .ok w) := by
  have hrn : ctx.rate.isNone = false := by
    cases hx : ctx.rate with
    | none => rw [hx] at hr; simp at hr
    | some r => rfl
  unfold check_los_discounts
  by_cases h1 : (ctx.discounts.isEmpty || ctx.rate.isNone || ctx.prices.isEmpty) = true
  · have hcases : ctx.discounts.los.getD [] = [] ∨ ctx.prices = [] := by
      rcases Bool.or_eq_true _ _ |>.mp h1 with h2 | h2
      · rcases Bool.or_eq_true _ _ |>.mp h2 with h3 | h3
        · exact Or.inl (discounts_isEmpty_los h3)
        · rw [hrn] at h3; simp at h3
      · exact Or.inr (List.isEmpty_iff.mp h2)
    refine ⟨ctx, by rw [if_pos h1], rfl, rfl, ?_, ?_⟩
    · intro i d v hi
      rcases hcases with hds | hpr
      · refine ⟨v, ?_, hi⟩
        rw [hds]
        exact apply_los_no_eligible [] d v _ (fun x hx => absurd hx (List.not_mem_nil x))
      · rw [hpr] at hi
        simp at hi
    · intro d w hw
      rcases hcases with hds | hpr
      · refine ⟨w, hw, ?_⟩
        rw [hds]
        exact apply_los_no_eligible [] d w _ (fun x hx => absurd hx (List.not_mem_nil x))
      · rw [hpr] at hw
        simp at hw
  · rw [if_neg h1]
    dsimp only
    by_cases h2 : (ctx.discounts.los.getD []).isEmpty = true
    · rw [if_pos h2]
      have hds : ctx.discounts.los.getD [] = [] := List.isEmpty_iff.mp h2
      refine ⟨ctx, rfl, rfl, rfl, ?_, ?_⟩
      · intro i d v hi
        refine ⟨v, ?_, hi⟩
        rw [hds]
        exact apply_los_no_eligible [] d v _ (fun x hx => absurd hx (List.not_mem_nil x))
      · intro d w hw
        refine ⟨w, hw, ?_⟩
        rw [hds]
        exact apply_los_no_eligible [] d w _ (fun x hx => absurd hx (List.not_mem_nil x))
    · rw [if_neg h2]
      obtain ⟨l2, hl2, hlen, hpt, hmem⟩ := map_prices_pointwise _ ctx.prices h
      refine ⟨{ ctx with prices := l2 }, ?_, rfl, hlen, hpt, hmem⟩
      show (map_prices _ ctx.prices).bind _ = _
      rw [hl2]
      rfl

theorem check_min_master (ctx : Context) (hr : ctx.rate.isSome = true)
    (h : ∀ d v, (d, v) ∈ ctx.prices →
      ∃ w, apply_min_price ctx.price_restrictions d v = .ok w) :
    ∃ ctx2, check_min_prices ctx = .ok ctx2 ∧
      ctx2 = { ctx with prices := ctx2.prices } ∧
      ctx2.prices.length = ctx.prices.length ∧
      (∀ (i : Nat) (d : Date) (v : Option Money), ctx.prices[i]? = some (d, v) →
        ∃ w, apply_min_price ctx.price_restrictions d v = .ok w ∧
          ctx2.prices[i]? = some (d, w)) ∧
      (∀ d w, (d, w) ∈ ctx2.prices →
        ∃ v, (d, v) ∈ ctx.prices ∧ apply_min_price ctx.price_restrictions d v = .ok w) := by
  unfold check_min_prices
  by_cases h1 : (ctx.rate.isNone || ctx.price_restrictions.isEmpty) = true
  · have hre : ctx.price_restrictions = [] := by
      rcases Bool.or_eq_true _ _ |>.mp h1 with h2 | h2
      · cases hx : ctx.rate with
        | none => rw [hx] at hr; simp at hr
        | some r => rw [hx] at h2; simp at h2
      · exact List.isEmpty_iff.mp h2
    refine ⟨ctx, by rw [if_pos h1], rfl, rfl, ?_, ?_⟩
    · intro i d v hi
      refine ⟨v, ?_, hi⟩
      rw [hre]
      exact apply_min_no_restriction [] d v (by simp [List.lookup])
    · intro d w hw
      refine ⟨w, hw, ?_⟩
      rw [hre]
      exact apply_min_no_restriction [] d w (by simp [List.lookup])
  · rw [if_neg h1]
    obtain ⟨l2, hl2, hlen, hpt, hmem⟩ := map_prices_pointwise _ ctx.prices h
    refine ⟨{ ctx with prices := l2 }, ?_, rfl, hlen, hpt, hmem⟩
    show (map_prices _ ctx.prices).bind _ = _
    rw [hl2]
    rfl

end usecases

namespace usecases

theorem check_lm_rate_none (today : Date) (ctx : Context) (h : ctx.rate = none) :
    check_last_minute_discounts today ctx = .ok ctx := by
  unfold check_last_minute_discounts
  rw [if_pos (by simp [h])]

theorem check_av_rate_none (ctx : Context) (h : ctx.rate = none) :
    check_availability_discounts ctx = .ok ctx := by
  unfold check_availability_discounts
  rw [if_pos (by simp [h])]

theorem check_los_rate_none (ctx : Context) (h : ctx.rate = none) :
    check_los_discounts ctx = .ok ctx := by
  unfold check_los_discounts
  rw [if_pos (by simp [h])]

theorem check_min_rate_none (ctx : Context) (h : ctx.rate = none) :
    check_min_prices ctx = .ok ctx := by
  unfold check_min_prices
  rw [if_pos (by simp [h])]

end usecases

section absent_day_claim

open usecases discounts house_prices

/-- A last-minute rule whose window covers the whole sample period. -/
def c3_rule : LastMinDiscount where
  id := 1
  days_before := 100
  discount := 10
  start_date := 0
  end_date := 10

/-- A resolver context with a resolved rate, one priced day and one absent
(`None`) day, and the last-minute rule above. -/
def c3_ctx : Context where
  start_date := 5
  end_date := 7
  guest_count := 1
  rate_id := none
  rate := some { id := 1, occupancy := 1 }
  rates := [{ id := 1, occupancy := 1 }]
  prices := [(5, some 100), (6, none)]
  discounts := { last_minute := some [c3_rule], availability := none, los := none }
  occupancies := []
  price_restrictions := []

/-- C3 counterexample: with a resolved rate, a partially priced period (day 6
absent) and a last-minute rule eligible for the absent day, the last-minute
step returns an **error** (the source raises `TypeError` on `None * Decimal`
and converts it to a failure) instead of succeeding — refuting the claim that
every step succeeds on partially missing per-day data. -/
theorem check_lm_absent_day_counterexample :
    (6, (none : Option Money)) ∈ c3_ctx.prices ∧
    c3_ctx.rate.isSome = true ∧
    check_last_minute_discounts 0 c3_ctx = .error () := by
  refine ⟨by decide, rfl, ?_⟩
  rfl

/-- C3 (amended): every discount step and the min-price step is a no-op
returning success when no rate was resolved; with a rate resolved and some
days absent, a step succeeds and leaves the absent days absent exactly when
no rule of that step (no restriction, for the min-price step) is eligible for
an absent day. -/
theorem discount_steps_noop_and_tolerant :
    (∀ (today : Date) (ctx : Context), ctx.rate = none →
      check_last_minute_discounts today ctx = .ok ctx ∧
      check_availability_discounts ctx = .ok ctx ∧
      check_los_discounts ctx = .ok ctx ∧
      check_min_prices ctx = .ok ctx) ∧
    (∀ (today : Date) (ctx : Context),
      (∀ d, (d, (none : Option Money)) ∈ ctx.prices →
        ∀ x ∈ ctx.discounts.last_minute.getD [], ¬ lm_eligible x today d) →
      ∃ ctx2, check_last_minute_discounts today ctx = .ok ctx2 ∧
        ctx2.prices.length = ctx.prices.length ∧
        ∀ (i : Nat) (d : Date), ctx.prices[i]? = some (d, none) →
          ctx2.prices[i]? = some (d, none)) ∧
    (∀ (ctx : Context),
      (∀ d, (d, (none : Option Money)) ∈ ctx.prices →
        ∀ x ∈ ctx.discounts.availability.getD [],
          ¬ av_eligible x d ((ctx.occupancies.lookup d).join)) →
      ∃ ctx2, check_availability_discounts ctx = .ok ctx2 ∧
        ctx2.prices.length = ctx.prices.length ∧
        ∀ (i : Nat) (d : Date), ctx.prices[i]? = some (d, none) →
          ctx2.prices[i]? = some (d, none)) ∧
    (∀ (ctx : Context),
      (∀ d, (d, (none : Option Money)) ∈ ctx.prices →
        ∀ x ∈ ctx.discounts.los.getD [],
          ¬ los_eligible x d (ctx.end_date - ctx.start_date)) →
      ∃ ctx2, check_los_discounts ctx = .ok ctx2 ∧
        ctx2.prices.length = ctx.prices.length ∧
        ∀ (i : Nat) (d : Date), ctx.prices[i]? = some (d, none) →
          ctx2.prices[i]? = some (d, none)) ∧
    (∀ (ctx : Context),
      (∀ d, (d, (none : Option Money)) ∈ ctx.prices →
        ctx.price_restrictions.lookup d = none) →
      ∃ ctx2, check_min_prices ctx = .ok ctx2 ∧
        ctx2.prices.length = ctx.prices.length ∧
        ∀ (i : Nat) (d : Date), ctx.prices[i]? = some (d, none) →
          ctx2.prices[i]? = some (d, none)) := by
  refine ⟨?_, ?_, ?_, ?_, ?_⟩
  · intro today ctx h
    exact ⟨check_lm_rate_none today ctx h, check_av_rate_none ctx h,
      check_los_rate_none ctx h, check_min_rate_none ctx h⟩
  · intro today ctx h
    cases hx : ctx.rate with
    | none =>
      exact ⟨ctx, check_lm_rate_none today ctx hx, rfl, fun i d hi => hi⟩
    | some r =>
      obtain ⟨ctx2, he, _, hlen, hpt, _⟩ := check_lm_master today ctx (by rw [hx]; rfl)
        (fun d v hv => by
          cases v with
          | none => exact ⟨none, apply_lm_no_eligible _ today d none (h d hv)⟩
          | some v0 =>
            obtain ⟨w, hw⟩ := apply_lm_some (ctx.discounts.last_minute.getD []) today d v0
            exact ⟨some w, hw⟩)
      refine ⟨ctx2, he, hlen, ?_⟩
      intro i d hi
      obtain ⟨w, hw, hl⟩ := hpt i d none hi
      rw [apply_lm_no_eligible _ today d none
        (h d (List.getElem?_mem hi))] at hw
      injection hw with hw2
      rw [← hw2] at hl
      exact hl
  · intro ctx h
    cases hx : ctx.rate with
    | none =>
      exact ⟨ctx, check_av_rate_none ctx hx, rfl, fun i d hi => hi⟩
    | some r =>
      obtain ⟨ctx2, he, _, hlen, hpt, _⟩ := check_av_master ctx (by rw [hx]; rfl)
        (fun d v hv => by
          cases v with
          | none => exact ⟨none, apply_av_no_eligible _ d none _ (h d hv)⟩
          | some v0 =>
            obtain ⟨w, hw⟩ := apply_av_some (ctx.discounts.availability.getD []) d v0
              ((ctx.occupancies.lookup d).join)
            exact ⟨some w, hw⟩)
      refine ⟨ctx2, he, hlen, ?_⟩
      intro i d hi
      obtain ⟨w, hw, hl⟩ := hpt i d none hi
      rw [apply_av_no_eligible _ d none _ (h d (List.getElem?_mem hi))] at hw
      injection hw with hw2
      rw [← hw2] at hl
      exact hl
  · intro ctx h
    cases hx : ctx.rate with
    | none =>
      exact ⟨ctx, check_los_rate_none ctx hx, rfl, fun i d hi => hi⟩
    | some r =>
      obtain ⟨ctx2, he, _, hlen, hpt, _⟩ := check_los_master ctx (by rw [hx]; rfl)
        (fun d v hv => by
          cases v with
          | none => exact ⟨none, apply_los_no_eligible _ d none _ (h d hv)⟩
          | some v0 =>
            obtain ⟨w, hw⟩ := apply_los_some (ctx.discounts.los.getD []) d v0
              (ctx.end_date - ctx.start_date)
            exact ⟨some w, hw⟩)
      refine ⟨ctx2, he, hlen, ?_⟩
      intro i d hi
      obtain ⟨w, hw, hl⟩ := hpt i d none hi
      rw [apply_los_no_eligible _ d none _ (h d (List.getElem?_mem hi))] at hw
      injection hw with hw2
      rw [← hw2] at hl
      exact hl
  · intro ctx h
    cases hx : ctx.rate with
    | none =>
      exact ⟨ctx, check_min_rate_none ctx hx, rfl, fun i d hi => hi⟩
    | some r =>
      obtain ⟨ctx2, he, _, hlen, hpt, _⟩ := check_min_master ctx (by rw [hx]; rfl)
        (fun d v hv => by
          cases v with
          | none => exact ⟨none, apply_min_no_restriction _ d none (h d hv)⟩
          | some v0 =>
            obtain ⟨w, hw, _, _⟩ := apply_min_some ctx.price_restrictions d v0
            exact ⟨some w, hw⟩)
      refine ⟨ctx2, he, hlen, ?_⟩
      intro i d hi
      obtain ⟨w, hw, hl⟩ := hpt i d none hi
      rw [apply_min_no_restriction _ d none (h d (List.getElem?_mem hi))] at hw
      injection hw with hw2
      rw [← hw2] at hl
      exact hl

/-- Closed witness: C3 (amended) at a context whose single absent day has no
eligible rule — the last-minute step succeeds and the day stays absent. -/
theorem discount_steps_noop_and_tolerant_witness :
    ∃ ctx2, check_last_minute_discounts (-100) c3_ctx = .ok ctx2 ∧
      ctx2.prices.length = c3_ctx.prices.length ∧
      ∀ (i : Nat) (d : Date), c3_ctx.prices[i]? = some (d, none) →
        ctx2.prices[i]? = some (d, none) := by
  refine discount_steps_noop_and_tolerant.2.1 (-100) c3_ctx ?_
  intro d hd x hx
  have hd2 : (d, (none : Option Money)) ∈
      [((5 : Date), some (100 : Money)), (6, none)] := hd
  have hd6 : d = 6 := by
    rcases List.mem_cons.mp hd2 with h1 | h1
    · simp at h1
    · rcases List.mem_cons.mp h1 with h2 | h2
      · exact (Prod.mk.injEq _ _ _ _ |>.mp h2).1
      · exact absurd h2 (List.not_mem_nil _)
  have hx2 : x ∈ [c3_rule] := hx
  have hx3 : x = c3_rule := List.mem_singleton.mp hx2
  rw [hd6, hx3]
  intro hcon
  have h1 : (6 : Int) - (-100) ≤ (100 : Int) := hcon.1
  omega

end absent_day_claim

namespace usecases

theorem except_bind_ok {α β γ : Type} (a : α) (f : α → Except γ β) :
    (Except.ok a : Except γ α).bind f = f a := rfl

/-- C4: the resolver applies the passes in the fixed order last-minute, then
availability, then length-of-stay, and only afterwards the minimum-price
floor; on any day carrying a restriction the final price is
`max(discounted, restriction)`, and a day without a restriction is left at
its discounted value. -/
theorem discount_pipeline_order (today : Date) (ctx : Context)
    (hr : ctx.rate.isSome = true)
    (hall : ∀ d v, (d, v) ∈ ctx.prices → v.isSome = true) :
    ∃ ctx2, discount_pipeline today ctx = .ok ctx2 ∧
      ctx2.prices.length = ctx.prices.length ∧
      ∀ (i : Nat) (d : Date) (v : Money), ctx.prices[i]? = some (d, some v) →
        ∃ v1 v2 v3 v4 : Money,
          apply_last_minute_discount (ctx.discounts.last_minute.getD []) today d
            (some v) = .ok (some v1) ∧
          apply_availability_discount (ctx.discounts.availability.getD []) d
            (some v1) ((ctx.occupancies.lookup d).join) = .ok (some v2) ∧
          apply_los_discount (ctx.discounts.los.getD []) d (some v2)
            (ctx.end_date - ctx.start_date) = .ok (some v3) ∧
          apply_min_price ctx.price_restrictions d (some v3) = .ok (some v4) ∧
          ctx2.prices[i]? = some (d, some v4) ∧
          (∀ r, ctx.price_restrictions.lookup d = some r → v4 = max v3 r) ∧
          (ctx.price_restrictions.lookup d = none → v4 = v3) := by
  have h1 : ∀ d v, (d, v) ∈ ctx.prices →
      ∃ w, apply_last_minute_discount (ctx.discounts.last_minute.getD []) today d v =
        .ok w := by
    intro d v hv
    cases v with
    | none => exact absurd (hall d none hv) (by simp)
    | some v0 =>
      obtain ⟨w, hw⟩ := apply_lm_some (ctx.discounts.last_minute.getD []) today d v0
      exact ⟨some w, hw⟩
  obtain ⟨c1, e1, f1, len1, pt1, mem1⟩ := check_lm_master today ctx hr h1
  have f1r : c1.rate = ctx.rate := by rw [f1]
  have f1d : c1.discounts = ctx.discounts := by rw [f1]
  have f1o : c1.occupancies = ctx.occupancies := by rw [f1]
  have f1s : c1.start_date = ctx.start_date := by rw [f1]
  have f1e : c1.end_date = ctx.end_date := by rw [f1]
  have f1p : c1.price_restrictions = ctx.price_restrictions := by rw [f1]
  have hall1 : ∀ d v, (d, v) ∈ c1.prices → v.isSome = true := by
    intro d w hw
    obtain ⟨v0, hv0, happ⟩ := mem1 d w hw
    cases v0 with
    | none => exact absurd (hall d none hv0) (by simp)
    | some u =>
      obtain ⟨w2, hw2⟩ := apply_lm_some (ctx.discounts.last_minute.getD []) today d u
      rw [happ] at hw2
      injection hw2 with hw3
      rw [hw3]
      rfl
  have h2 : ∀ d v, (d, v) ∈ c1.prices →
      ∃ w, apply_availability_discount (c1.discounts.availability.getD []) d v
        ((c1.occupancies.lookup d).join) = .ok w := by
    intro d v hv
    cases v with
    | none => exact absurd (hall1 d none hv) (by simp)
    | some v0 =>
      obtain ⟨w, hw⟩ := apply_av_some (c1.discounts.availability.getD []) d v0
        ((c1.occupancies.lookup d).join)
      exact ⟨some w, hw⟩
  obtain ⟨c2, e2, f2, len2, pt2, mem2⟩ := check_av_master c1 (by rw [f1r]; exact hr) h2
  have f2r : c2.rate = c1.rate := by rw [f2]
  have f2d : c2.discounts = c1.discounts := by rw [f2]
  have f2o : c2.occupancies = c1.occupancies := by rw [f2]
  have f2s : c2.start_date = c1.start_date := by rw [f2]
  have f2e : c2.end_date = c1.end_date := by rw [f2]
  have f2p : c2.price_restrictions = c1.price_restrictions := by rw [f2]
  have hall2 : ∀ d v, (d, v) ∈ c2.prices → v.isSome = true := by
    intro d w hw
    obtain ⟨v0, hv0, happ⟩ := mem2 d w hw
    cases v0 with
    | none => exact absurd (hall1 d none hv0) (by simp)
    | some u =>
      obtain ⟨w2, hw2⟩ := apply_av_some (c1.discounts.availability.getD []) d u
        ((c1.occupancies.lookup d).join)
      rw [happ] at hw2
      injection hw2 with hw3
      rw [hw3]
      rfl
  have h3 : ∀ d v, (d, v) ∈ c2.prices →
      ∃ w, apply_los_discount (c2.discounts.los.getD []) d v
        (c2.end_date - c2.start_date) = .ok w := by
    intro d v hv
    cases v with
    | none => exact absurd (hall2 d none hv) (by simp)
    | some v0 =>
      obtain ⟨w, hw⟩ := apply_los_some (c2.discounts.los.getD []) d v0
        (c2.end_date - c2.start_date)
      exact ⟨some w, hw⟩
  obtain ⟨c3, e3, f3, len3, pt3, mem3⟩ := check_los_master c2
    (by rw [f2r, f1r]; exact hr) h3
  have f3p : c3.price_restrictions = c2.price_restrictions := by rw [f3]
  have hall3 : ∀ d v, (d, v) ∈ c3.prices → v.isSome = true := by
    intro d w hw
    obtain ⟨v0, hv0, happ⟩ := mem3 d w hw
    cases v0 with
    | none => exact absurd (hall2 d none hv0) (by simp)
    | some u =>
      obtain ⟨w2, hw2⟩ := apply_los_some (c2.discounts.los.getD []) d u
        (c2.end_date - c2.start_date)
      rw [happ] at hw2
      injection hw2 with hw3
      rw [hw3]
      rfl
  have h4 : ∀ d v, (d, v) ∈ c3.prices →
      ∃ w, apply_min_price c3.price_restrictions d v = .ok w := by
    intro d v hv
    cases v with
    | none => exact absurd (hall3 d none hv) (by simp)
    | some v0 =>
      obtain ⟨w, hw, _, _⟩ := apply_min_some c3.price_restrictions d v0
      exact ⟨some w, hw⟩
  obtain ⟨c4, e4, f4, len4, pt4, mem4⟩ := check_min_master c3
    (by rw [f3]; show c2.rate.isSome = true; rw [f2r, f1r]; exact hr) h4
  refine ⟨c4, ?_, by rw [len4, len3, len2, len1], ?_⟩
  · unfold discount_pipeline
    rw [e1, except_bind_ok, e2, except_bind_ok, e3, except_bind_ok, e4]
  · intro i d v hi
    obtain ⟨w1, hw1, hl1⟩ := pt1 i d (some v) hi
    obtain ⟨v1, hv1⟩ := apply_lm_some (ctx.discounts.last_minute.getD []) today d v
    rw [hv1] at hw1
    injection hw1 with hw1e
    rw [← hw1e] at hl1
    obtain ⟨w2, hw2, hl2⟩ := pt2 i d (some v1) hl1
    rw [f1d, f1o] at hw2
    obtain ⟨v2, hv2⟩ := apply_av_some (ctx.discounts.availability.getD []) d v1
      ((ctx.occupancies.lookup d).join)
    rw [hv2] at hw2
    injection hw2 with hw2e
    rw [← hw2e] at hl2
    obtain ⟨w3, hw3, hl3⟩ := pt3 i d (some v2) hl2
    rw [f2d, f1d, f2e, f1e, f2s, f1s] at hw3
    obtain ⟨v3, hv3⟩ := apply_los_some (ctx.discounts.los.getD []) d v2
      (ctx.end_date - ctx.start_date)
    rw [hv3] at hw3
    injection hw3 with hw3e
    rw [← hw3e] at hl3
    obtain ⟨w4, hw4, hl4⟩ := pt4 i d (some v3) hl3
    rw [f3p, f2p, f1p] at hw4
    obtain ⟨v4, hv4, hmax, hnone⟩ := apply_min_some ctx.price_restrictions d v3
    rw [hv4] at hw4
    injection hw4 with hw4e
    rw [← hw4e] at hl4
    exact ⟨v1, v2, v3, v4, hv1, hv2, hv3, hv4, hl4, hmax, hnone⟩

end usecases

section pipeline_claim

open usecases discounts house_prices

/-- A 15% last-minute rule covering only day 0. -/
def c4_rule : LastMinDiscount where
  id := 1
  days_before := 5
  discount := 15
  start_date := 0
  end_date := 0

/-- A context mirroring the spec's stacking scenario: prices
`{day0: 100, day1: 110}`, the 15% last-minute rule above, and a min-price
restriction of 100 on both days. -/
def c4_ctx : Context where
  start_date := 0
  end_date := 2
  guest_count := 2
  rate_id := none
  rate := some { id := 1, occupancy := 2 }
  rates := [{ id := 1, occupancy := 2 }]
  prices := [(0, some 100), (1, some 110)]
  discounts := { last_minute := some [c4_rule], availability := none, los := none }
  occupancies := []
  price_restrictions := [(0, 100), (1, 100)]

/-- Closed witness: C4 applied to the concrete stacking scenario. -/
theorem discount_pipeline_order_witness :
    c4_ctx.rate.isSome = true ∧
    ∃ ctx2, discount_pipeline 0 c4_ctx = .ok ctx2 ∧
      ctx2.prices.length = c4_ctx.prices.length := by
  refine ⟨rfl, ?_⟩
  have hall : ∀ d v, (d, v) ∈ c4_ctx.prices → v.isSome = true := by
    intro d v hv
    have hv2 : (d, v) ∈ [((0 : Date), some (100 : Money)), (1, some 110)] := hv
    rcases List.mem_cons.mp hv2 with h | h
    · rw [(Prod.mk.injEq _ _ _ _ |>.mp h).2]
      rfl
    · rcases List.mem_cons.mp h with h2 | h2
      · rw [(Prod.mk.injEq _ _ _ _ |>.mp h2).2]
        rfl
      · exact absurd h2 (List.not_mem_nil _)
  obtain ⟨ctx2, he, hlen, _⟩ := discount_pipeline_order 0 c4_ctx rfl hall
  exact ⟨ctx2, he, hlen⟩

end pipeline_claim

section rule_selection_claim

open usecases discounts

/-- An availability rule with threshold 5 and a 15% discount, window [0,10]. -/
def c5_rule : AvailabilityDiscount where
  id := 1
  free_rooms := 5
  discount := 15
  start_date := 0
  end_date := 10

/-- C5 counterexample: with a free-room inventory of 0 and an availability
rule whose `free_rooms` threshold is 5, the claim's condition
"inventory ≤ free_rooms" holds and predicts a 15% discount (100 → 85), but
the code's filter is `free_rooms <= inventory`, so the rule is not applied
and the price stays 100. -/
theorem availability_direction_counterexample :
    av_eligible_spec c5_rule 1 (some 0) ∧
    c5_rule.discount = 15 ∧
    (100 : Money) * (1 - (15 : ℚ) / 100) = 85 ∧
    apply_availability_discount [c5_rule] 1 (some 100) (some 0) = .ok (some 100) ∧
    (100 : Money) ≠ 85 := by
  refine ⟨⟨show (0 : Int) ≤ 5 by decide, show (0 : Int) ≤ 1 by decide,
    show (1 : Int) ≤ 10 by decide⟩, rfl, by norm_num, rfl, by norm_num⟩

/-- C5 (amended): within each pass and for every day, the rule set is
filtered by that pass's condition (last-minute: window contains the day and
`days_before` at least the days until the stay; availability: the rule's
`free_rooms` threshold is at most the free-room inventory — the code's
direction, opposite to the spec's wording — and the day in the window; LOS:
stay length at least the rule's `nights` and the day in the window); among
eligible rules one with the highest discount percentage is applied via
`price * (1 - pct/100)`, and with no eligible rule the price is unchanged. -/
theorem highest_eligible_discount_applied :
    (∀ (ds : List LastMinDiscount) (today day : Date) (v : Money),
      ((∀ x ∈ ds, ¬ lm_eligible x today day) →
        apply_last_minute_discount ds today day (some v) = .ok (some v)) ∧
      (∀ x0 ∈ ds, lm_eligible x0 today day →
        ∃ x ∈ ds, lm_eligible x today day ∧
          (∀ y ∈ ds, lm_eligible y today day → y.discount ≤ x.discount) ∧
          apply_last_minute_discount ds today day (some v) =
            .ok (some (v * (1 - (x.discount : ℚ) / 100))))) ∧
    (∀ (ds : List AvailabilityDiscount) (day : Date) (inventory : Option Int)
        (v : Money),
      ((∀ x ∈ ds, ¬ av_eligible x day inventory) →
        apply_availability_discount ds day (some v) inventory = .ok (some v)) ∧
      (∀ x0 ∈ ds, av_eligible x0 day inventory →
        ∃ x ∈ ds, av_eligible x day inventory ∧
          (∀ y ∈ ds, av_eligible y day inventory → y.discount ≤ x.discount) ∧
          apply_availability_discount ds day (some v) inventory =
            .ok (some (v * (1 - (x.discount : ℚ) / 100))))) ∧
    (∀ (ds : List LOSDiscount) (day : Date) (nights : Int) (v : Money),
      ((∀ x ∈ ds, ¬ los_eligible x day nights) →
        apply_los_discount ds day (some v) nights = .ok (some v)) ∧
      (∀ x0 ∈ ds, los_eligible x0 day nights →
        ∃ x ∈ ds, los_eligible x day nights ∧
          (∀ y ∈ ds, los_eligible y day nights → y.discount ≤ x.discount) ∧
          apply_los_discount ds day (some v) nights =
            .ok (some (v * (1 - (x.discount : ℚ) / 100))))) := by
  refine ⟨?_, ?_, ?_⟩
  · intro ds today day v
    constructor
    · intro h
      exact apply_lm_no_eligible ds today day (some v) h
    · intro x0 hx0 helig
      have hmem : x0 ∈ ds.filter (fun x => decide (day - today ≤ x.days_before) &&
          decide (x.start_date ≤ day) && decide (day ≤ x.end_date)) :=
        (lm_filter_mem ds today day x0).mpr ⟨hx0, helig⟩
      have hne : (ds.filter (fun x => decide (day - today ≤ x.days_before) &&
          decide (x.start_date ≤ day) && decide (day ≤ x.end_date))).map
            (fun x => x.discount) ≠ [] := by
        intro hc
        rw [List.map_eq_nil_iff] at hc
        rw [hc] at hmem
        exact List.not_mem_nil x0 hmem
      obtain ⟨m, hm, hmm, hmax⟩ := max_discount_spec _ hne
      obtain ⟨x, hxf, hxd⟩ := List.mem_map.mp hmm
      obtain ⟨hxds, hxelig⟩ := (lm_filter_mem ds today day x).mp hxf
      refine ⟨x, hxds, hxelig, ?_, ?_⟩
      · intro y hy hyelig
        rw [hxd]
        exact hmax _ (List.mem_map_of_mem _ ((lm_filter_mem ds today day y).mpr ⟨hy, hyelig⟩))
      · unfold apply_last_minute_discount
        dsimp only
        rw [hm, hxd]
  · intro ds day inventory v
    constructor
    · intro h
      exact apply_av_no_eligible ds day (some v) inventory h
    · intro x0 hx0 helig
      have hmem : x0 ∈ ds.filter (fun x => decide (x.free_rooms ≤ inventory.getD 0) &&
          decide (x.start_date ≤ day) && decide (day ≤ x.end_date)) :=
        (av_filter_mem ds day inventory x0).mpr ⟨hx0, helig⟩
      have hne : (ds.filter (fun x => decide (x.free_rooms ≤ inventory.getD 0) &&
          decide (x.start_date ≤ day) && decide (day ≤ x.end_date))).map
            (fun x => x.discount) ≠ [] := by
        intro hc
        rw [List.map_eq_nil_iff] at hc
        rw [hc] at hmem
        exact List.not_mem_nil x0 hmem
      obtain ⟨m, hm, hmm, hmax⟩ := max_discount_spec _ hne
      obtain ⟨x, hxf, hxd⟩ := List.mem_map.mp hmm
      obtain ⟨hxds, hxelig⟩ := (av_filter_mem ds day inventory x).mp hxf
      refine ⟨x, hxds, hxelig, ?_, ?_⟩
      · intro y hy hyelig
        rw [hxd]
        exact hmax _ (List.mem_map_of_mem _ ((av_filter_mem ds day inventory y).mpr ⟨hy, hyelig⟩))
      · unfold apply_availability_discount
        dsimp only
        rw [hm, hxd]
  · intro ds day nights v
    constructor
    · intro h
      exact apply_los_no_eligible ds day (some v) nights h
    · intro x0 hx0 helig
      have hmem : x0 ∈ ds.filter (fun x => decide (x.nights ≤ nights) &&
          decide (x.start_date ≤ day) && decide (day ≤ x.end_date)) :=
        (los_filter_mem ds day nights x0).mpr ⟨hx0, helig⟩
      have hne : (ds.filter (fun x => decide (x.nights ≤ nights) &&
          decide (x.start_date ≤ day) && decide (day ≤ x.end_date))).map
            (fun x => x.discount) ≠ [] := by
        intro hc
        rw [List.map_eq_nil_iff] at hc
        rw [hc] at hmem
        exact List.not_mem_nil x0 hmem
      obtain ⟨m, hm, hmm, hmax⟩ := max_discount_spec _ hne
      obtain ⟨x, hxf, hxd⟩ := List.mem_map.mp hmm
      obtain ⟨hxds, hxelig⟩ := (los_filter_mem ds day nights x).mp hxf
      refine ⟨x, hxds, hxelig, ?_, ?_⟩
      · intro y hy hyelig
        rw [hxd]
        exact hmax _ (List.mem_map_of_mem _ ((los_filter_mem ds day nights y).mpr ⟨hy, hyelig⟩))
      · unfold apply_los_discount
        dsimp only
        rw [hm, hxd]

/-- Closed witness: C5 at a concrete availability pass — the rule is eligible
for inventory 5 (threshold ≤ inventory) and 100 becomes 85. -/
theorem highest_eligible_discount_applied_witness :
    av_eligible c5_rule 1 (some 5) ∧
    ∃ x ∈ [c5_rule], av_eligible x 1 (some 5) ∧
      (∀ y ∈ [c5_rule], av_eligible y 1 (some 5) → y.discount ≤ x.discount) ∧
      apply_availability_discount [c5_rule] 1 (some 100) (some 5) =
        .ok (some (100 * (1 - (x.discount : ℚ) / 100))) := by
  have he : av_eligible c5_rule 1 (some 5) :=
    ⟨show (5 : Int) ≤ 5 by decide, show (0 : Int) ≤ 1 by decide,
     show (1 : Int) ≤ 10 by decide⟩
  exact ⟨he, (highest_eligible_discount_applied.2.1 [c5_rule] 1 (some 5) 100).2
    c5_rule (List.mem_singleton_self c5_rule) he⟩

end rule_selection_claim

section keys_lemmas

variable {κ : Type} {α : Type} [BEq κ] [LawfulBEq κ]

theorem lookup_isSome_iff_mem_keys (idx : List (κ × α)) (k : κ) :
    (idx.lookup k).isSome = true ↔ k ∈ idx.map Prod.fst := by
  induction idx with
  | nil => simp [List.lookup]
  | cons p rest ih =>
    rw [List.lookup_cons]
    cases hb : (k == p.1) with
    | true =>
      simp only [List.map_cons]
      constructor
      · intro _
        exact (eq_of_beq hb) ▸ List.mem_cons_self _ _
      · intro _
        rfl
    | false =>
      simp only [List.map_cons]
      constructor
      · intro h
        exact List.mem_cons_of_mem _ (ih.mp h)
      · intro h
        rcases List.mem_cons.mp h with h1 | h1
        · rw [h1] at hb
          simp at hb
        · exact ih.mpr h1

theorem mem_keys_dict_insert (idx : List (κ × α)) (k : κ) (v : α) (k2 : κ) :
    k2 ∈ (dict_insert idx k v).map Prod.fst ↔
      k2 ∈ idx.map Prod.fst ∨ k2 = k := by
  unfold dict_insert
  by_cases hp : (idx.lookup k).isSome = true
  · rw [if_pos hp]
    have hk : k ∈ idx.map Prod.fst := (lookup_isSome_iff_mem_keys idx k).mp hp
    constructor
    · intro h
      obtain ⟨p, hpm, hpe⟩ := List.mem_map.mp h
      obtain ⟨q, hqm, hqe⟩ := List.mem_map.mp hpm
      by_cases hq : (q.1 == k) = true
      · rw [if_pos hq] at hqe
        right
        rw [← hpe, ← hqe]
      · rw [if_neg hq] at hqe
        left
        exact List.mem_map.mpr ⟨q, hqm, by rw [← hpe, ← hqe]⟩
    · intro h
      rcases h with h | h
      · obtain ⟨q, hqm, hqe⟩ := List.mem_map.mp h
        refine List.mem_map.mpr ?_
        by_cases hq : (q.1 == k) = true
        · refine ⟨(k, v), List.mem_map.mpr ⟨q, hqm, by rw [if_pos hq]⟩, ?_⟩
          rw [← hqe]
          exact (eq_of_beq hq).symm
        · exact ⟨q, List.mem_map.mpr ⟨q, hqm, by rw [if_neg hq]⟩, hqe⟩
      · subst h
        obtain ⟨q, hqm, hqe⟩ := List.mem_map.mp hk
        refine List.mem_map.mpr ⟨(k2, v), List.mem_map.mpr ⟨q, hqm, ?_⟩, rfl⟩
        rw [if_pos (by rw [hqe]; simp)]
  · rw [if_neg hp]
    rw [List.map_append]
    simp

theorem mem_keys_build_index (l : List α) (key : α → κ) (k : κ) :
    k ∈ (build_index l key).map Prod.fst ↔ ∃ r ∈ l, key r = k := by
  induction l using List.reverseRecOn with
  | nil => simp [build_index]
  | append_singleton l2 x ih =>
    have hstep : build_index (l2 ++ [x]) key =
        dict_insert (build_index l2 key) (key x) x := by
      unfold build_index
      rw [List.foldl_append]
      rfl
    rw [hstep, mem_keys_dict_insert, ih]
    constructor
    · rintro (⟨r, hr, hk⟩ | h)
      · exact ⟨r, List.mem_append_left _ hr, hk⟩
      · exact ⟨x, List.mem_append_right _ (by simp), h.symm⟩
    · rintro ⟨r, hr, hk⟩
      rcases List.mem_append.mp hr with h1 | h1
      · exact Or.inl ⟨r, h1, hk⟩
      · right
        rw [← hk, List.mem_singleton.mp h1]

end keys_lemmas

section sorted_find_lemmas

theorem find_first_gt (g : Int) :
    ∀ (l : List Int), l.Sorted (· ≤ ·) →
      ∀ o, l.find? (fun x => decide (g < x)) = some o →
        g < o ∧ o ∈ l ∧ ∀ m ∈ l, g < m → o ≤ m := by
  intro l
  induction l with
  | nil =>
    intro _ o hf
    simp at hf
  | cons x xs ih =>
    intro hs o hf
    obtain ⟨hhead, htail⟩ := List.sorted_cons.mp hs
    cases hp : (decide (g < x)) with
    | true =>
      simp only [List.find?_cons, hp] at hf
      injection hf with hfe
      subst hfe
      refine ⟨of_decide_eq_true hp, List.mem_cons_self _ _, ?_⟩
      intro m hm _
      rcases List.mem_cons.mp hm with h1 | h1
      · rw [h1]
      · exact hhead m h1
    | false =>
      simp only [List.find?_cons, hp] at hf
      obtain ⟨hgo, hmem, hmin⟩ := ih htail o hf
      refine ⟨hgo, List.mem_cons_of_mem _ hmem, ?_⟩
      intro m hm hgm
      rcases List.mem_cons.mp hm with h1 | h1
      · subst h1
        exact absurd hgm (of_decide_eq_false hp)
      · exact hmin m h1 hgm

theorem find_first_lt (g : Int) :
    ∀ (l : List Int), l.Sorted (· ≥ ·) →
      ∀ o, l.find? (fun x => decide (x < g)) = some o →
        o < g ∧ o ∈ l ∧ ∀ m ∈ l, m < g → m ≤ o := by
  intro l
  induction l with
  | nil =>
    intro _ o hf
    simp at hf
  | cons x xs ih =>
    intro hs o hf
    obtain ⟨hhead, htail⟩ := List.sorted_cons.mp hs
    cases hp : (decide (x < g)) with
    | true =>
      simp only [List.find?_cons, hp] at hf
      injection hf with hfe
      subst hfe
      refine ⟨of_decide_eq_true hp, List.mem_cons_self _ _, ?_⟩
      intro m hm _
      rcases List.mem_cons.mp hm with h1 | h1
      · rw [h1]
      · exact hhead m h1
    | false =>
      simp only [List.find?_cons, hp] at hf
      obtain ⟨hgo, hmem, hmin⟩ := ih htail o hf
      refine ⟨hgo, List.mem_cons_of_mem _ hmem, ?_⟩
      intro m hm hgm
      rcases List.mem_cons.mp hm with h1 | h1
      · subst h1
        exact absurd hgm (of_decide_eq_false hp)
      · exact hmin m h1 hgm

end sorted_find_lemmas

section rate_selection_claim

open usecases house_prices

/-- C6: occupancy-based rate selection is deterministic — an exact occupancy
match to `guest_count` wins; otherwise the candidate with the smallest
occupancy strictly greater; otherwise the candidate with the largest
occupancy strictly less; with no candidates the context keeps `rate = none`. -/
theorem select_rate_by_guest_count_tiebreak (ctx : Context) (hnone : ctx.rate = none) :
    (ctx.rates = [] → select_rate_by_guest_count ctx = .ok ctx) ∧
    (ctx.rates ≠ [] →
      ∃ r : Rate, r ∈ ctx.rates ∧
        select_rate_by_guest_count ctx = .ok { ctx with rate := some r } ∧
        ((∃ r0 ∈ ctx.rates, r0.occupancy = ctx.guest_count) →
          r.occupancy = ctx.guest_count) ∧
        ((¬ ∃ r0 ∈ ctx.rates, r0.occupancy = ctx.guest_count) →
          (∃ r0 ∈ ctx.rates, ctx.guest_count < r0.occupancy) →
          ctx.guest_count < r.occupancy ∧
            ∀ r0 ∈ ctx.rates, ctx.guest_count < r0.occupancy →
              r.occupancy ≤ r0.occupancy) ∧
        ((¬ ∃ r0 ∈ ctx.rates, r0.occupancy = ctx.guest_count) →
          (¬ ∃ r0 ∈ ctx.rates, ctx.guest_count < r0.occupancy) →
          r.occupancy < ctx.guest_count ∧
            ∀ r0 ∈ ctx.rates, r0.occupancy < ctx.guest_count →
              r0.occupancy ≤ r.occupancy)) := by
  have hrs : ctx.rate.isSome = false := by rw [hnone]; rfl
  constructor
  · intro hempty
    unfold select_rate_by_guest_count
    rw [if_pos (by simp [hrs, hempty])]
  · intro hne
    have hie : ctx.rates.isEmpty = false := by
      cases hc : ctx.rates.isEmpty
      · rfl
      · exact absurd (List.isEmpty_iff.mp hc) hne
    unfold select_rate_by_guest_count
    rw [if_neg (by simp [hrs, hie])]
    dsimp only
    have hkeys : ∀ k, k ∈ (build_index ctx.rates (fun x => x.occupancy)).map Prod.fst ↔
        ∃ r0 ∈ ctx.rates, r0.occupancy = k :=
      fun k => mem_keys_build_index ctx.rates (fun x => x.occupancy) k
    cases hl : (build_index ctx.rates (fun x => x.occupancy)).lookup ctx.guest_count with
    | some r =>
      obtain ⟨hrm, hro⟩ := build_index_lookup hl
      refine ⟨r, hrm, rfl, fun _ => hro, ?_, ?_⟩
      · intro hnex _
        exact absurd ⟨r, hrm, hro⟩ hnex
      · intro hnex _
        exact absurd ⟨r, hrm, hro⟩ hnex
    | none =>
      have hnex : ¬ ∃ r0 ∈ ctx.rates, r0.occupancy = ctx.guest_count := by
        rintro ⟨r0, hr0, he⟩
        have h1 : ctx.guest_count ∈
            (build_index ctx.rates (fun x => x.occupancy)).map Prod.fst :=
          (hkeys _).mpr ⟨r0, hr0, he⟩
        have h2 := (lookup_isSome_iff_mem_keys _ _).mpr h1
        rw [hl] at h2
        simp at h2
      have sortedA : (List.insertionSort (· ≤ ·)
          ((build_index ctx.rates (fun x => x.occupancy)).map Prod.fst)).Sorted
            (· ≤ ·) :=
        List.sorted_insertionSort _ _
      have permA := List.perm_insertionSort (· ≤ ·)
        ((build_index ctx.rates (fun x => x.occupancy)).map Prod.fst)
      cases hf : (List.insertionSort (· ≤ ·)
          ((build_index ctx.rates (fun x => x.occupancy)).map Prod.fst)).find?
            (fun o => decide (ctx.guest_count < o)) with
      | some o =>
        obtain ⟨hgo, homem, homin⟩ := find_first_gt _ _ sortedA o hf
        have hok : o ∈ (build_index ctx.rates (fun x => x.occupancy)).map Prod.fst :=
          permA.mem_iff.mp homem
        obtain ⟨r, hro⟩ := Option.isSome_iff_exists.mp
          ((lookup_isSome_iff_mem_keys _ _).mpr hok)
        obtain ⟨hrm, hroc⟩ := build_index_lookup hro
        refine ⟨r, hrm, ?_, ?_, ?_, ?_⟩
        · show Except.ok ({ ctx with rate :=
            (build_index ctx.rates (fun x => x.occupancy)).lookup o }) = _
          rw [hro]
        · intro hex
          exact absurd hex hnex
        · intro _ _
          refine ⟨by rw [hroc]; exact hgo, ?_⟩
          intro r0 hr0 hgt
          have hk0 : r0.occupancy ∈
              (build_index ctx.rates (fun x => x.occupancy)).map Prod.fst :=
            (hkeys _).mpr ⟨r0, hr0, rfl⟩
          rw [hroc]
          exact homin _ (permA.mem_iff.mpr hk0) hgt
        · intro _ hnogt
          exact absurd ⟨r, hrm, by rw [hroc]; exact hgo⟩ hnogt
      | none =>
        have hnogtkeys : ∀ m ∈ (build_index ctx.rates (fun x => x.occupancy)).map
            Prod.fst, ¬ ctx.guest_count < m := by
          intro m hm
          have := List.find?_eq_none.mp hf m (permA.mem_iff.mpr hm)
          simpa using this
        have sortedD : (List.insertionSort (· ≤ ·)
            ((build_index ctx.rates (fun x => x.occupancy)).map Prod.fst)).reverse.Sorted
              (· ≥ ·) := by
          rw [List.Sorted, List.pairwise_reverse]
          exact sortedA
        cases hf2 : (List.insertionSort (· ≤ ·)
            ((build_index ctx.rates (fun x => x.occupancy)).map Prod.fst)).reverse.find?
              (fun o => decide (o < ctx.guest_count)) with
        | some o =>
          obtain ⟨hog, homem, homax⟩ := find_first_lt _ _ sortedD o hf2
          have hok : o ∈ (build_index ctx.rates (fun x => x.occupancy)).map Prod.fst :=
            permA.mem_iff.mp (List.mem_reverse.mp homem)
          obtain ⟨r, hro⟩ := Option.isSome_iff_exists.mp
            ((lookup_isSome_iff_mem_keys _ _).mpr hok)
          obtain ⟨hrm, hroc⟩ := build_index_lookup hro
          refine ⟨r, hrm, ?_, ?_, ?_, ?_⟩
          · show Except.ok ({ ctx with rate :=
              (build_index ctx.rates (fun x => x.occupancy)).lookup o }) = _
            rw [hro]
          · intro hex
            exact absurd hex hnex
          · intro _ hgt
            obtain ⟨r0, hr0, hgt0⟩ := hgt
            exact absurd hgt0 (hnogtkeys _ ((hkeys _).mpr ⟨r0, hr0, rfl⟩))
          · intro _ _
            refine ⟨by rw [hroc]; exact hog, ?_⟩
            intro r0 hr0 hlt
            have hk0 : r0.occupancy ∈
                (build_index ctx.rates (fun x => x.occupancy)).map Prod.fst :=
              (hkeys _).mpr ⟨r0, hr0, rfl⟩
            rw [hroc]
            exact homax _ (List.mem_reverse.mpr (permA.mem_iff.mpr hk0)) hlt
        | none =>
          exfalso
          obtain ⟨r0, hr0⟩ := List.exists_mem_of_ne_nil ctx.rates hne
          have hk0 : r0.occupancy ∈
              (build_index ctx.rates (fun x => x.occupancy)).map Prod.fst :=
            (hkeys _).mpr ⟨r0, hr0, rfl⟩
          have hngt := hnogtkeys _ hk0
          have hnlt : ¬ r0.occupancy < ctx.guest_count := by
            have := List.find?_eq_none.mp hf2 r0.occupancy
              (List.mem_reverse.mpr (permA.mem_iff.mpr hk0))
            simpa using this
          have heq : r0.occupancy = ctx.guest_count := by omega
          exact hnex ⟨r0, hr0, heq⟩

/-- A minimal resolver context carrying only candidate rates and a guest
count of 2. -/
def c6_ctx (rates : List Rate) : Context where
  start_date := 0
  end_date := 2
  guest_count := 2
  rate_id := none
  rate := none
  rates := rates
  prices := []
  discounts := { last_minute := none, availability := none, los := none }
  occupancies := []
  price_restrictions := []

/-- Closed witness: C6 on the spec's three scenarios — occupancies {1} pick 1
(closest smaller), {3,4} pick 3 (closest bigger), {2,3,4} pick 2 (exact). -/
theorem select_rate_by_guest_count_tiebreak_witness :
    (∃ r : Rate, r ∈ (c6_ctx [⟨101, 1⟩]).rates ∧
      select_rate_by_guest_count (c6_ctx [⟨101, 1⟩]) =
        .ok { c6_ctx [⟨101, 1⟩] with rate := some r } ∧ r.occupancy < 2) ∧
    select_rate_by_guest_count (c6_ctx [⟨101, 1⟩]) =
      .ok { c6_ctx [⟨101, 1⟩] with rate := some ⟨101, 1⟩ } ∧
    select_rate_by_guest_count (c6_ctx [⟨103, 3⟩, ⟨104, 4⟩]) =
      .ok { c6_ctx [⟨103, 3⟩, ⟨104, 4⟩] with rate := some ⟨103, 3⟩ } ∧
    select_rate_by_guest_count (c6_ctx [⟨102, 2⟩, ⟨103, 3⟩, ⟨104, 4⟩]) =
      .ok { c6_ctx [⟨102, 2⟩, ⟨103, 3⟩, ⟨104, 4⟩] with rate := some ⟨102, 2⟩ } := by
  refine ⟨?_, rfl, rfl, rfl⟩
  obtain ⟨r, hmem, hsel, _, _, hc⟩ :=
    (select_rate_by_guest_count_tiebreak (c6_ctx [⟨101, 1⟩]) rfl).2 (by decide)
  obtain ⟨hlt, _⟩ := hc (by decide) (by decide)
  exact ⟨r, hmem, hsel, hlt⟩

end rate_selection_claim

namespace models

theorem update_day_fields_id (d : ReservationDay) (data : entities.ReservationDay)
    (wap : Bool) : (update_reservation_day_fields d data wap).id = d.id := by
  unfold update_reservation_day_fields
  cases wap <;> rfl

theorem update_day_fields_day (d : ReservationDay) (data : entities.ReservationDay)
    (wap : Bool) : (update_reservation_day_fields d data wap).day = d.day := by
  unfold update_reservation_day_fields
  cases wap <;> rfl

theorem update_first_day_map (data : entities.ReservationDay) (wap : Bool) :
    ∀ (days : List ReservationDay),
      (update_first_day data wap days).map (fun x => x.day) =
        days.map (fun x => x.day) := by
  intro days
  induction days with
  | nil => rfl
  | cons d rest ih =>
    unfold update_first_day
    by_cases hd : d.day = data.day
    · rw [if_pos hd]
      simp [update_day_fields_day]
    · rw [if_neg hd]
      simp [ih]

theorem update_first_day_entry (data : entities.ReservationDay) (wap : Bool) :
    ∀ (days : List ReservationDay) (dm : ReservationDay), dm ∈ days →
      ∃ d2 ∈ update_first_day data wap days, d2.id = dm.id ∧ d2.day = dm.day := by
  intro days
  induction days with
  | nil =>
    intro dm hdm
    simp at hdm
  | cons d rest ih =>
    intro dm hdm
    unfold update_first_day
    by_cases hd : d.day = data.day
    · rw [if_pos hd]
      rcases List.mem_cons.mp hdm with h1 | h1
      · subst h1
        exact ⟨update_reservation_day_fields dm data wap, List.mem_cons_self _ _,
          update_day_fields_id dm data wap, update_day_fields_day dm data wap⟩
      · exact ⟨dm, List.mem_cons_of_mem _ h1, rfl, rfl⟩
    · rw [if_neg hd]
      rcases List.mem_cons.mp hdm with h1 | h1
      · subst h1
        exact ⟨dm, List.mem_cons_self _ _, rfl, rfl⟩
      · obtain ⟨d2, hd2, hid, hday⟩ := ih dm h1
        exact ⟨d2, List.mem_cons_of_mem _ hd2, hid, hday⟩

theorem delete_first_day_subset (day : Date) :
    ∀ (l : List ReservationDay) (d2 : ReservationDay),
      d2 ∈ delete_first_day day l → d2 ∈ l := by
  intro l
  induction l with
  | nil =>
    intro d2 h
    simp [delete_first_day] at h
  | cons d rest ih =>
    intro d2 h
    unfold delete_first_day at h
    by_cases hd : d.day = day
    · rw [if_pos hd] at h
      exact List.mem_cons_of_mem _ h
    · rw [if_neg hd] at h
      rcases List.mem_cons.mp h with h1 | h1
      · exact h1 ▸ List.mem_cons_self _ _
      · exact List.mem_cons_of_mem _ (ih d2 h1)

theorem delete_first_day_keep (day : Date) :
    ∀ (l : List ReservationDay) (d2 : ReservationDay),
      d2 ∈ l → d2.day ≠ day → d2 ∈ delete_first_day day l := by
  intro l
  induction l with
  | nil =>
    intro d2 h
    simp at h
  | cons d rest ih =>
    intro d2 h hne
    unfold delete_first_day
    by_cases hd : d.day = day
    · rw [if_pos hd]
      rcases List.mem_cons.mp h with h1 | h1
      · rw [h1] at hne
        exact absurd hd hne
      · exact h1
    · rw [if_neg hd]
      rcases List.mem_cons.mp h with h1 | h1
      · exact h1 ▸ List.mem_cons_self _ _
      · exact List.mem_cons_of_mem _ (ih d2 h1 hne)

theorem delete_first_day_count (day : Date) :
    ∀ (l : List ReservationDay),
      (l.map (fun x => x.day)).count day ≤ 1 →
      ∀ d2 ∈ delete_first_day day l, d2.day ≠ day := by
  intro l
  induction l with
  | nil =>
    intro _ d2 h
    simp [delete_first_day] at h
  | cons d rest ih =>
    intro hcount d2 h
    unfold delete_first_day at h
    by_cases hd : d.day = day
    · rw [if_pos hd] at h
      intro hcon
      rw [List.map_cons, List.count_cons] at hcount
      have h1 : (rest.map (fun x => x.day)).count day ≥ 1 :=
        List.one_le_count_iff.mpr (List.mem_map.mpr ⟨d2, h, hcon⟩)
      simp [hd] at hcount
      omega
    · rw [if_neg hd] at h
      rcases List.mem_cons.mp h with h1 | h1
      · rw [h1]
        exact hd
      · refine ih ?_ d2 h1
        rw [List.map_cons, List.count_cons] at hcount
        simp [hd] at hcount
        omega

theorem delete_first_day_count_le (day other : Date) :
    ∀ (l : List ReservationDay),
      ((delete_first_day day l).map (fun x => x.day)).count other ≤
        (l.map (fun x => x.day)).count other := by
  intro l
  induction l with
  | nil => simp [delete_first_day]
  | cons d rest ih =>
    unfold delete_first_day
    by_cases hd : d.day = day
    · rw [if_pos hd]
      rw [List.map_cons, List.count_cons]
      omega
    · rw [if_neg hd]
      rw [List.map_cons, List.map_cons, List.count_cons, List.count_cons]
      omega

theorem fold_delete_days_subset :
    ∀ (ds : List Date) (l : List ReservationDay) (d2 : ReservationDay),
      d2 ∈ ds.foldl (fun days d => delete_first_day d days) l → d2 ∈ l := by
  intro ds
  induction ds with
  | nil =>
    intro l d2 h
    exact h
  | cons d rest ih =>
    intro l d2 h
    rw [List.foldl_cons] at h
    exact delete_first_day_subset d l d2 (ih _ d2 h)

theorem fold_delete_days_removes (X : Date) :
    ∀ (ds : List Date) (l : List ReservationDay),
      X ∈ ds → (l.map (fun x => x.day)).count X ≤ 1 →
      ∀ d2 ∈ ds.foldl (fun days d => delete_first_day d days) l, d2.day ≠ X := by
  intro ds
  induction ds with
  | nil =>
    intro l hX
    simp at hX
  | cons d rest ih =>
    intro l hX hcount d2 h
    rw [List.foldl_cons] at h
    by_cases hd : d = X
    · subst hd
      have h2 := fold_delete_days_subset rest _ d2 h
      exact delete_first_day_count d l hcount d2 h2
    · have hX2 : X ∈ rest := by
        rcases List.mem_cons.mp hX with h1 | h1
        · exact absurd h1.symm hd
        · exact h1
      exact ih _ hX2 (le_trans (delete_first_day_count_le d X l) hcount) d2 h

theorem fold_delete_days_keep :
    ∀ (ds : List Date) (l : List ReservationDay) (d2 : ReservationDay),
      d2 ∈ l → d2.day ∉ ds →
      d2 ∈ ds.foldl (fun days d => delete_first_day d days) l := by
  intro ds
  induction ds with
  | nil =>
    intro l d2 h _
    exact h
  | cons d rest ih =>
    intro l d2 h hnd
    rw [List.foldl_cons]
    refine ih _ d2 ?_ (fun hc => hnd (List.mem_cons_of_mem _ hc))
    exact delete_first_day_keep d l d2 h (fun hc => hnd (hc ▸ List.mem_cons_self _ _))

end models

namespace models

theorem days_fold_map (existed_days : List Date) (rid : Int) (wap : Bool) :
    ∀ (pds : List entities.ReservationDay) (acc : List ReservationDay),
      ∃ extra,
        ((pds.foldl
          (fun ds pd =>
            if pd.day ∈ existed_days then update_first_day pd wap ds
            else ds ++ [create_reservation_day rid pd]) acc).map (fun x => x.day)) =
          acc.map (fun x => x.day) ++ extra ∧
        ∀ e ∈ extra, e ∈ pds.map (fun x => x.day) := by
  intro pds
  induction pds with
  | nil =>
    intro acc
    exact ⟨[], by simp, by simp⟩
  | cons pd rest ih =>
    intro acc
    rw [List.foldl_cons]
    by_cases hc : pd.day ∈ existed_days
    · rw [if_pos hc]
      obtain ⟨extra, hmap, hext⟩ := ih (update_first_day pd wap acc)
      refine ⟨extra, ?_, ?_⟩
      · rw [hmap, update_first_day_map]
      · intro e he
        exact List.mem_cons_of_mem _ (hext e he)
    · rw [if_neg hc]
      obtain ⟨extra, hmap, hext⟩ := ih (acc ++ [create_reservation_day rid pd])
      refine ⟨pd.day :: extra, ?_, ?_⟩
      · rw [hmap]
        simp [create_reservation_day]
      · intro e he
        rcases List.mem_cons.mp he with h1 | h1
        · rw [List.map_cons, h1]
          exact List.mem_cons_self _ _
        · exact List.mem_cons_of_mem _ (hext e h1)

theorem days_fold_entry (existed_days : List Date) (rid : Int) (wap : Bool) :
    ∀ (pds : List entities.ReservationDay) (acc : List ReservationDay)
      (dm : ReservationDay), dm ∈ acc →
      ∃ d2 ∈ pds.foldl
          (fun ds pd =>
            if pd.day ∈ existed_days then update_first_day pd wap ds
            else ds ++ [create_reservation_day rid pd]) acc,
        d2.id = dm.id ∧ d2.day = dm.day := by
  intro pds
  induction pds with
  | nil =>
    intro acc dm hdm
    exact ⟨dm, hdm, rfl, rfl⟩
  | cons pd rest ih =>
    intro acc dm hdm
    rw [List.foldl_cons]
    by_cases hc : pd.day ∈ existed_days
    · rw [if_pos hc]
      obtain ⟨mid, hmid, hid, hday⟩ := update_first_day_entry pd wap acc dm hdm
      obtain ⟨d2, hd2, hid2, hday2⟩ := ih _ mid hmid
      exact ⟨d2, hd2, hid2.trans hid, hday2.trans hday⟩
    · rw [if_neg hc]
      exact ih _ dm (List.mem_append_left _ hdm)

theorem update_day_prices_diff_removes (rid : Int) (days : List ReservationDay)
    (data_days : List entities.ReservationDay) (wap : Bool)
    (hnodup : (days.map (fun x => x.day)).Nodup) (dm : ReservationDay)
    (hdm : dm ∈ days) (hdrop : dm.day ∉ data_days.map (fun x => x.day)) :
    ∀ d2 ∈ update_day_prices_diff rid days data_days wap, d2.day ≠ dm.day := by
  unfold update_day_prices_diff
  dsimp only
  have hXex : dm.day ∈ days.map (fun x => x.day) :=
    List.mem_map.mpr ⟨dm, hdm, rfl⟩
  have hXdel : dm.day ∈ (days.map (fun x => x.day)).filter
      (fun d => decide (¬ d ∈ data_days.map (fun x => x.day))) :=
    List.mem_filter.mpr ⟨hXex, by simpa using hdrop⟩
  obtain ⟨extra, hmap, hext⟩ := days_fold_map (days.map (fun x => x.day)) rid wap
    data_days days
  have hcount : (((data_days.foldl
      (fun ds pd =>
        if pd.day ∈ days.map (fun x => x.day) then update_first_day pd wap ds
        else ds ++ [create_reservation_day rid pd]) days)).map
        (fun x => x.day)).count dm.day ≤ 1 := by
    rw [hmap, List.count_append]
    have h1 : (days.map (fun x => x.day)).count dm.day ≤ 1 :=
      List.nodup_iff_count_le_one.mp hnodup dm.day
    have h2 : extra.count dm.day = 0 := by
      rw [List.count_eq_zero]
      intro hc
      exact hdrop (hext _ hc)
    omega
  exact fold_delete_days_removes dm.day _ _ hXdel hcount

theorem update_day_prices_diff_keeps (rid : Int) (days : List ReservationDay)
    (data_days : List entities.ReservationDay) (wap : Bool)
    (dm : ReservationDay) (hdm : dm ∈ days)
    (hkeep : dm.day ∈ data_days.map (fun x => x.day)) :
    ∃ d2 ∈ update_day_prices_diff rid days data_days wap,
      d2.id = dm.id ∧ d2.day = dm.day := by
  unfold update_day_prices_diff
  dsimp only
  obtain ⟨d2, hd2, hid, hday⟩ := days_fold_entry (days.map (fun x => x.day)) rid wap
    data_days days dm hdm
  refine ⟨d2, ?_, hid, hday⟩
  refine fold_delete_days_keep _ _ d2 hd2 ?_
  intro hc
  have := List.mem_filter.mp hc
  rw [hday] at this
  exact (by simpa using this.2 : dm.day ∉ data_days.map (fun x => x.day)) hkeep

theorem update_room_model_day_prices (room_model : ReservationRoom)
    (data : entities.ReservationRoom) (wap : Bool) :
    (update_reservation_room_model room_model data wap).day_prices =
      update_day_prices_diff room_model.id room_model.day_prices data.day_prices wap := by
  unfold update_reservation_room_model
  cases wap <;> rfl

end models

namespace models

theorem update_room_model_external_id (rm : ReservationRoom)
    (data : entities.ReservationRoom) (wap : Bool) :
    (update_reservation_room_model rm data wap).external_id = rm.external_id := by
  unfold update_reservation_room_model
  cases wap <;> rfl

theorem update_first_active_keep (data : entities.ReservationRoom) (wap : Bool) :
    ∀ (st : List ReservationRoom) (r2 : ReservationRoom), r2 ∈ st →
      r2.external_id ≠ data.external_id →
      r2 ∈ update_first_active_room data wap st := by
  intro st
  induction st with
  | nil =>
    intro r2 h _
    exact absurd h (List.not_mem_nil r2)
  | cons r rest ih =>
    intro r2 h hne
    unfold update_first_active_room
    by_cases hc : r.is_deleted = false ∧ r.external_id = data.external_id
    · rw [if_pos hc]
      rcases List.mem_cons.mp h with h1 | h1
      · exfalso
        apply hne
        rw [h1]
        exact hc.2
      · exact List.mem_cons_of_mem _ h1
    · rw [if_neg hc]
      rcases List.mem_cons.mp h with h1 | h1
      · rw [h1]
        exact List.mem_cons_self _ _
      · exact List.mem_cons_of_mem _ (ih r2 h1 hne)

theorem update_first_active_members (data : entities.ReservationRoom) (wap : Bool) :
    ∀ (st : List ReservationRoom) (r2 : ReservationRoom),
      r2 ∈ update_first_active_room data wap st →
      r2 ∈ st ∨ ∃ u ∈ st, u.external_id = data.external_id ∧
        r2 = update_reservation_room_model u data wap := by
  intro st
  induction st with
  | nil =>
    intro r2 h
    exact absurd h (List.not_mem_nil r2)
  | cons r rest ih =>
    intro r2 h
    unfold update_first_active_room at h
    by_cases hc : r.is_deleted = false ∧ r.external_id = data.external_id
    · rw [if_pos hc] at h
      rcases List.mem_cons.mp h with h1 | h1
      · exact Or.inr ⟨r, List.mem_cons_self _ _, hc.2, h1⟩
      · exact Or.inl (List.mem_cons_of_mem _ h1)
    · rw [if_neg hc] at h
      rcases List.mem_cons.mp h with h1 | h1
      · refine Or.inl ?_
        rw [h1]
        exact List.mem_cons_self _ _
      · rcases ih r2 h1 with h2 | ⟨u, hu, hue, hr2⟩
        · exact Or.inl (List.mem_cons_of_mem _ h2)
        · exact Or.inr ⟨u, List.mem_cons_of_mem _ hu, hue, hr2⟩

theorem rooms_fold_keep (existed : List (Option String)) (rid : Int) (wap : Bool) :
    ∀ (rooms : List entities.ReservationRoom) (st : List ReservationRoom)
      (r : ReservationRoom), r ∈ st →
      (∀ r2 ∈ st, r2.external_id = r.external_id → r2 = r) →
      (∀ rd ∈ rooms, rd.external_id ≠ r.external_id) →
      r ∈ rooms.foldl
          (fun st room =>
            if room.external_id ∈ existed then update_first_active_room room wap st
            else st ++ [create_reservation_room rid room]) st ∧
      ∀ r2 ∈ rooms.foldl
          (fun st room =>
            if room.external_id ∈ existed then update_first_active_room room wap st
            else st ++ [create_reservation_room rid room]) st,
        r2.external_id = r.external_id → r2 = r := by
  intro rooms
  induction rooms with
  | nil =>
    intro st r h hu _
    exact ⟨h, hu⟩
  | cons room rest ih =>
    intro st r h hu hne
    rw [List.foldl_cons]
    have hner : room.external_id ≠ r.external_id := hne room (List.mem_cons_self _ _)
    by_cases hc : room.external_id ∈ existed
    · rw [if_pos hc]
      refine ih _ r ?_ ?_ (fun rd hrd => hne rd (List.mem_cons_of_mem _ hrd))
      · exact update_first_active_keep room wap st r h (Ne.symm hner)
      · intro r2 h2 hext
        rcases update_first_active_members room wap st r2 h2 with h3 | ⟨u, _, hue, hr2⟩
        · exact hu r2 h3 hext
        · exfalso
          have hre : r2.external_id = u.external_id := by
            rw [hr2]
            exact update_room_model_external_id u room wap
          rw [hre, hue] at hext
          exact hner hext
    · rw [if_neg hc]
      refine ih _ r (List.mem_append_left _ h) ?_
        (fun rd hrd => hne rd (List.mem_cons_of_mem _ hrd))
      intro r2 h2 hext
      rcases List.mem_append.mp h2 with h3 | h3
      · exact hu r2 h3 hext
      · exfalso
        have h4 : r2 = create_reservation_room rid room := List.mem_singleton.mp h3
        have hre : r2.external_id = room.external_id := by
          rw [h4]
          rfl
        rw [hre] at hext
        exact hner hext

theorem delete_first_active_keep_ne (now : Int) (e : Option String) :
    ∀ (l : List ReservationRoom) (r2 : ReservationRoom), r2 ∈ l →
      r2.external_id ≠ e → r2 ∈ delete_first_active_room now e l := by
  intro l
  induction l with
  | nil =>
    intro r2 h _
    exact absurd h (List.not_mem_nil r2)
  | cons r rest ih =>
    intro r2 h hne
    unfold delete_first_active_room
    by_cases hc : r.is_deleted = false ∧ r.external_id = e
    · rw [if_pos hc]
      rcases List.mem_cons.mp h with h1 | h1
      · exfalso
        apply hne
        rw [h1]
        exact hc.2
      · exact List.mem_cons_of_mem _ h1
    · rw [if_neg hc]
      rcases List.mem_cons.mp h with h1 | h1
      · rw [h1]
        exact List.mem_cons_self _ _
      · exact List.mem_cons_of_mem _ (ih r2 h1 hne)

theorem delete_first_active_members (now : Int) (e : Option String) :
    ∀ (l : List ReservationRoom) (r2 : ReservationRoom),
      r2 ∈ delete_first_active_room now e l →
      r2 ∈ l ∨ ∃ u ∈ l, u.external_id = e ∧ r2 = ReservationRoom.delete u now := by
  intro l
  induction l with
  | nil =>
    intro r2 h
    exact absurd h (List.not_mem_nil r2)
  | cons r rest ih =>
    intro r2 h
    unfold delete_first_active_room at h
    by_cases hc : r.is_deleted = false ∧ r.external_id = e
    · rw [if_pos hc] at h
      rcases List.mem_cons.mp h with h1 | h1
      · exact Or.inr ⟨r, List.mem_cons_self _ _, hc.2, h1⟩
      · exact Or.inl (List.mem_cons_of_mem _ h1)
    · rw [if_neg hc] at h
      rcases List.mem_cons.mp h with h1 | h1
      · refine Or.inl ?_
        rw [h1]
        exact List.mem_cons_self _ _
      · rcases ih r2 h1 with h2 | ⟨u, hu, hue, hr2⟩
        · exact Or.inl (List.mem_cons_of_mem _ h2)
        · exact Or.inr ⟨u, List.mem_cons_of_mem _ hu, hue, hr2⟩

theorem delete_first_active_keep_deleted (now : Int) (e : Option String) :
    ∀ (l : List ReservationRoom) (r2 : ReservationRoom), r2 ∈ l →
      r2.is_deleted = true → r2 ∈ delete_first_active_room now e l := by
  intro l
  induction l with
  | nil =>
    intro r2 h _
    exact absurd h (List.not_mem_nil r2)
  | cons r rest ih =>
    intro r2 h hdel
    unfold delete_first_active_room
    by_cases hc : r.is_deleted = false ∧ r.external_id = e
    · rw [if_pos hc]
      rcases List.mem_cons.mp h with h1 | h1
      · exfalso
        rw [h1] at hdel
        rw [hc.1] at hdel
        exact Bool.false_ne_true hdel
      · exact List.mem_cons_of_mem _ h1
    · rw [if_neg hc]
      rcases List.mem_cons.mp h with h1 | h1
      · rw [h1]
        exact List.mem_cons_self _ _
      · exact List.mem_cons_of_mem _ (ih r2 h1 hdel)

theorem delete_first_active_marks (now : Int) :
    ∀ (l : List ReservationRoom) (r : ReservationRoom), r ∈ l →
      r.is_deleted = false →
      (∀ r2 ∈ l, r2.external_id = r.external_id → r2 = r) →
      ReservationRoom.delete r now ∈ delete_first_active_room now r.external_id l := by
  intro l
  induction l with
  | nil =>
    intro r h _ _
    exact absurd h (List.not_mem_nil r)
  | cons x rest ih =>
    intro r hmem hact huniq
    unfold delete_first_active_room
    by_cases hc : x.is_deleted = false ∧ x.external_id = r.external_id
    · have hxr : x = r := huniq x (List.mem_cons_self _ _) hc.2
      rw [if_pos hc, hxr]
      exact List.mem_cons_self _ _
    · rw [if_neg hc]
      rcases List.mem_cons.mp hmem with h1 | h1
      · exfalso
        apply hc
        constructor
        · rw [← h1]
          exact hact
        · rw [← h1]
      · exact List.mem_cons_of_mem _
          (ih r h1 hact (fun r2 h2 he => huniq r2 (List.mem_cons_of_mem _ h2) he))

theorem fold_delete_rooms_keep_deleted (now : Int) :
    ∀ (ds : List (Option String)) (l : List ReservationRoom)
      (r2 : ReservationRoom), r2 ∈ l → r2.is_deleted = true →
      r2 ∈ ds.foldl (fun st e => delete_first_active_room now e st) l := by
  intro ds
  induction ds with
  | nil =>
    intro l r2 h _
    exact h
  | cons e rest ih =>
    intro l r2 h hdel
    rw [List.foldl_cons]
    exact ih _ r2 (delete_first_active_keep_deleted now e l r2 h hdel) hdel

theorem fold_delete_rooms_marks (now : Int) :
    ∀ (ds : List (Option String)) (l : List ReservationRoom)
      (r : ReservationRoom), r ∈ l → r.is_deleted = false →
      r.external_id ∈ ds →
      (∀ r2 ∈ l, r2.external_id = r.external_id → r2 = r) →
      ReservationRoom.delete r now ∈
        ds.foldl (fun st e => delete_first_active_room now e st) l := by
  intro ds
  induction ds with
  | nil =>
    intro l r _ _ hX _
    exact absurd hX (List.not_mem_nil _)
  | cons e rest ih =>
    intro l r hmem hact hX huniq
    rw [List.foldl_cons]
    by_cases he : e = r.external_id
    · subst he
      exact fold_delete_rooms_keep_deleted now rest _ _
        (delete_first_active_marks now l r hmem hact huniq) rfl
    · have hmem2 : r ∈ delete_first_active_room now e l :=
        delete_first_active_keep_ne now e l r hmem (fun hcon => he hcon.symm)
      have huniq2 : ∀ r2 ∈ delete_first_active_room now e l,
          r2.external_id = r.external_id → r2 = r := by
        intro r2 h2 hext
        rcases delete_first_active_members now e l r2 h2 with h3 | ⟨u, _, hue, hr2⟩
        · exact huniq r2 h3 hext
        · exfalso
          have hre : r2.external_id = u.external_id := by rw [hr2]; rfl
          rw [hre, hue] at hext
          exact he hext
      have hX2 : r.external_id ∈ rest := by
        rcases List.mem_cons.mp hX with h1 | h1
        · exact absurd h1.symm he
        · exact h1
      exact ih _ r hmem2 hact hX2 huniq2

end models

section boundary_deletion_theorems

/-- C9: at the persistence boundary, diffing the stored external ids against
the ids processed during the merge soft-deletes a dropped room and hard-deletes
a dropped day: for a stored active room (unique by external id) whose external
id is absent from the incoming rooms, `update_reservation_rooms` keeps the row
as its soft-deleted copy — same primary key, `is_deleted` set, timestamp
recorded, day rows intact — never erasing it; while inside
`update_reservation_room_model` a stored day row whose date is absent from the
snapshot is hard-deleted (no row with that date survives) and a day row whose
date is still present survives as a row with the same primary key and date. -/
theorem boundary_soft_deletes_rooms_hard_deletes_days
    (reservation_id now : Int) (wap : Bool)
    (stored : List models.ReservationRoom) (rooms : List entities.ReservationRoom)
    (r : models.ReservationRoom)
    (hnodup : (stored.map (fun x => x.external_id)).Nodup)
    (hmem : r ∈ stored) (hact : r.is_deleted = false)
    (hdrop : r.external_id ∉ rooms.map (fun x => x.external_id))
    (room_model : models.ReservationRoom) (data : entities.ReservationRoom)
    (hdnodup : (room_model.day_prices.map (fun x => x.day)).Nodup)
    (dm dk : models.ReservationDay)
    (hdm : dm ∈ room_model.day_prices)
    (hddrop : dm.day ∉ data.day_prices.map (fun x => x.day))
    (hdk : dk ∈ room_model.day_prices)
    (hdkeep : dk.day ∈ data.day_prices.map (fun x => x.day)) :
    (models.ReservationRoom.delete r now ∈
        models.update_reservation_rooms reservation_id stored rooms wap now ∧
      (models.ReservationRoom.delete r now).id = r.id ∧
      (models.ReservationRoom.delete r now).is_deleted = true ∧
      (models.ReservationRoom.delete r now).deleted_at = some now ∧
      (models.ReservationRoom.delete r now).day_prices = r.day_prices) ∧
    (∀ d2 ∈ (models.update_reservation_room_model room_model data wap).day_prices,
        d2.day ≠ dm.day) ∧
    ∃ d2 ∈ (models.update_reservation_room_model room_model data wap).day_prices,
      d2.id = dk.id ∧ d2.day = dk.day := by
  refine ⟨⟨?_, rfl, rfl, rfl, rfl⟩, ?_, ?_⟩
  · unfold models.update_reservation_rooms
    dsimp only
    have huniq : ∀ r2 ∈ stored, r2.external_id = r.external_id → r2 = r :=
      fun r2 h2 hext => List.inj_on_of_nodup_map hnodup h2 hmem hext
    have hne : ∀ rd ∈ rooms, rd.external_id ≠ r.external_id := by
      intro rd hrd hcon
      exact hdrop (List.mem_map.mpr ⟨rd, hrd, hcon⟩)
    obtain ⟨h1, h2⟩ := models.rooms_fold_keep (stored.map (fun x => x.external_id))
      reservation_id wap rooms stored r hmem huniq hne
    refine models.fold_delete_rooms_marks now _ _ r h1 hact ?_ h2
    refine List.mem_filter.mpr ⟨List.mem_map.mpr ⟨r, hmem, rfl⟩, ?_⟩
    simpa using hdrop
  · rw [models.update_room_model_day_prices room_model data wap]
    exact models.update_day_prices_diff_removes room_model.id room_model.day_prices
      data.day_prices wap hdnodup dm hdm hddrop
  · rw [models.update_room_model_day_prices room_model data wap]
    exact models.update_day_prices_diff_keeps room_model.id room_model.day_prices
      data.day_prices wap dk hdk hdkeep

/-- A stored day row whose date (`1`) is absent from the incoming snapshot. -/
def c9_day_drop : models.ReservationDay where
  id := 21
  reservation_room_id := 7
  day := 1
  roomtype_id := none
  room_id := none
  price_original := 5
  price_changed := 5
  price_accepted := 5
  tax := 0
  currency := none

/-- A stored day row whose date (`2`) is still present in the snapshot. -/
def c9_day_keep : models.ReservationDay where
  id := 22
  reservation_room_id := 7
  day := 2
  roomtype_id := none
  room_id := none
  price_original := 6
  price_changed := 6
  price_accepted := 6
  tax := 0
  currency := none

/-- A stored active room row whose external id is absent from the snapshot. -/
def c9_stored_room : models.ReservationRoom where
  id := 7
  reservation_id := 1
  channel_id := "c"
  rate_id := none
  rate_plan_id := some 3
  rate_plan_id_original := some 3
  channel_rate_id := "a"
  channel_rate_id_changed := "a"
  checkin := 0
  checkin_original := 0
  checkout := 2
  checkout_original := 2
  price := 10
  price_accepted := 10
  netto_price := 10
  netto_price_accepted := 10
  external_id := some "R1"
  external_name := ""
  guest_name := ""
  guest_count := 1
  adults := 0
  children := 0
  max_children := 0
  extra_bed := 0
  with_breakfast := false
  currency := none
  tax := 0
  fees := 0
  notes_extra := ""
  notes_facilities := ""
  notes_info := ""
  notes_meal := ""
  policy := []
  policy_original := []
  is_deleted := false
  deleted_at := none
  day_prices := [c9_day_drop, c9_day_keep]

/-- The snapshot day kept for date `2`. -/
def c9_pd : entities.ReservationDay where
  id := none
  reservation_room_id := none
  day := 2
  roomtype_id := none
  room_id := none
  price_changed := 9
  price_accepted := 9
  tax := 0
  currency := none
  price_original := 0

/-- A snapshot room carrying only the date-`2` day row. -/
def c9_data : entities.ReservationRoom where
  id := none
  reservation_id := some 1
  channel_id := "c"
  channel_rate_id := "a"
  checkin := 0
  checkout := 2
  rate_plan_id := some 3
  rate_id := none
  external_id := some "R2"
  external_name := ""
  guest_name := ""
  guest_count := 1
  adults := 0
  children := 0
  max_children := 0
  extra_bed := 0
  with_breakfast := false
  currency := none
  policy := []
  price := 9
  price_accepted := 9
  netto_price := 9
  netto_price_accepted := 9
  tax := 0
  fees := 0
  notes_extra := ""
  notes_facilities := ""
  notes_info := ""
  notes_meal := ""
  day_prices := [c9_pd]
  checkin_original := none
  checkout_original := none
  rate_plan_id_original := none
  policy_original := none
  is_deleted := false
  deleted_at := none

/-- Closed witness: C9 on a stored room dropped by an empty snapshot and a
room row whose date-`1` day is dropped while its date-`2` day is kept. -/
theorem boundary_deletion_witness :
    (models.ReservationRoom.delete c9_stored_room 500 ∈
        models.update_reservation_rooms 1 [c9_stored_room] [] false 500 ∧
      (models.ReservationRoom.delete c9_stored_room 500).id = c9_stored_room.id ∧
      (models.ReservationRoom.delete c9_stored_room 500).is_deleted = true ∧
      (models.ReservationRoom.delete c9_stored_room 500).deleted_at = some 500 ∧
      (models.ReservationRoom.delete c9_stored_room 500).day_prices =
        c9_stored_room.day_prices) ∧
    (∀ d2 ∈ (models.update_reservation_room_model c9_stored_room c9_data false).day_prices,
        d2.day ≠ c9_day_drop.day) ∧
    ∃ d2 ∈ (models.update_reservation_room_model c9_stored_room c9_data false).day_prices,
      d2.id = c9_day_keep.id ∧ d2.day = c9_day_keep.day :=
  boundary_soft_deletes_rooms_hard_deletes_days 1 500 false [c9_stored_room] []
    c9_stored_room (by simp) (List.mem_singleton.mpr rfl) rfl (by simp)
    c9_stored_room c9_data (by decide) c9_day_drop c9_day_keep
    (List.mem_cons_self _ _) (by decide)
    (List.mem_cons_of_mem _ (List.mem_cons_self _ _)) (by decide)

end boundary_deletion_theorems
